import Mathlib

/-!
Verification development for the js2typings repository: a tool that infers a
typed declaration file from untyped JavaScript module source annotated with
JSDoc comments.

The embedding below translates the repository's core (src/parser.ts, the
revision in src/unnamed/part_008, which is the one src/writer.ts consumes;
src/walk.ts; src/writer.ts) into Lean.  The external collaborators (the
esprima syntax parser and the doctrine JSDoc grammar parser) are out of
scope per the system's design: their *outputs* are the inputs of the
embedded functions, so the ESTree syntax tree and the doctrine tag/type
trees are modelled as inductive types, and each raw comment string is
represented by the doctrine AST that `doctrine.parse` would return for it.

JavaScript object maps (string keys, insertion order, assignment overwrites
in place) are modelled as association lists with an in-place `setA`
operation.  JavaScript `undefined`/`null` distinctions that the code relies
on are modelled with `Option`.  Runtime crashes the code can hit (property
access on `undefined`, calling `walk` on a node kind with no handler) are
modelled as `Except.error`.
-/

namespace Js2Typings

/-! ## Data model (part_008: parser.ts, current revision) -/

/-- `Type` node from parser.ts: `{ namespace, name, parameters }`.  The field
`namespace` is a Lean keyword, so it is called `ns` here.  `Type` itself is a
Lean builtin, so the class is called `Ty`. -/
inductive Ty where
  | mk (ns : Option String) (name : String) (parameters : List Ty)
deriving Repr

def Ty.ns : Ty → Option String
  | .mk n _ _ => n

def Ty.name : Ty → String
  | .mk _ n _ => n

def Ty.parameters : Ty → List Ty
  | .mk _ _ p => p

/-- `ExportError` from parser.ts: a diagnostic message attached to a
declaration. -/
structure ExportError where
  message : String
deriving Repr, DecidableEq

/-- `Parameter` from parser.ts.  `description` is `Option` because the code
stores `jsdocParams[name] && jsdocParams[name].description`, which is
`undefined` when the parameter has no matching `@param` tag. -/
structure Parameter where
  name : String
  description : Option String
  types : List Ty
deriving Repr

/-- The fields of `BaseDeclaration` from parser.ts.  A freshly constructed
declaration has `exported` and `description` undefined (modelled `false` /
`none`) and `errors = []`. -/
structure Base where
  exported : Bool
  description : Option String
  errors : List ExportError
deriving Repr

/-- A freshly constructed `BaseDeclaration`. -/
def newBase : Base := ⟨false, none, []⟩

/-- `FunctionDeclaration` from parser.ts.  `result` is `Option` because the
class leaves the field undefined until `getFunctionExport` assigns it (the
validation sweep guards on `if (result)`). -/
structure FunctionDecl where
  base : Base
  params : List Parameter
  result : Option (List Ty)
deriving Repr

/-- The closed set of declaration variants from parser.ts
(`VariableDeclaration`, `ConstDeclaration`, `TypeDefDeclaration`,
`ImportDeclaration`, `NewInstanceDeclaration`, `ObjectDeclaration`,
`ClassDeclaration`, `FunctionDeclaration`, `Identifier`).  Class and object
members are JS object maps, modelled as association lists. -/
inductive JsVal where
  | str (s : String)
  | num (n : Int)
  | boolean (b : Bool)
  | null
  | arr (elements : List JsVal)
  | emptyObject
deriving Repr

inductive Decl where
  | variableDecl (base : Base) (types : List Ty)
  | constant (base : Base) (value : JsVal)
  | typedef (base : Base) (types : List Ty)
  | importDecl (base : Base) (moduleName : String) (localName : Option String)
  | newInstance (base : Base) (instanceType : Ty)
  | identifier (base : Base) (localName : String)
  | object (base : Base) (members : List (String × Decl))
  | classDecl (base : Base) (ctor : Option FunctionDecl) (members : List (String × Decl))
  | func (f : FunctionDecl)
deriving Repr

/-- `ModuleDeclaration` from parser.ts: the item map, the module-level error
list (the only `BaseDeclaration` field parseCode uses on the module itself),
and the whole-module `exports` slot. -/
structure ModuleDecl where
  items : List (String × Decl)
  errors : List ExportError
  exports : Option Decl
deriving Repr

/-- JS object-map assignment `m[k] = v`: overwrites in place (keeping the
key's original position) or appends a new key. -/
def setA {α : Type} (m : List (String × α)) (k : String) (v : α) : List (String × α) :=
  match m with
  | [] => [(k, v)]
  | (k', v') :: rest => if k' = k then (k, v) :: rest else (k', v') :: setA rest k v

/-- JS object-map read `m[k]`. -/
def lookupA {α : Type} (m : List (String × α)) (k : String) : Option α :=
  match m with
  | [] => none
  | (k', v') :: rest => if k' = k then some v' else lookupA rest k

/-- Set the `exported` flag on a declaration (`e.exported = true`). -/
def setExported : Decl → Decl
  | .variableDecl b ts => .variableDecl { b with exported := true } ts
  | .constant b v => .constant { b with exported := true } v
  | .typedef b ts => .typedef { b with exported := true } ts
  | .importDecl b m l => .importDecl { b with exported := true } m l
  | .newInstance b t => .newInstance { b with exported := true } t
  | .identifier b n => .identifier { b with exported := true } n
  | .object b ms => .object { b with exported := true } ms
  | .classDecl b c ms => .classDecl { b with exported := true } c ms
  | .func f => .func { f with base := { f.base with exported := true } }

/-- Overwrite the `description` field (`e.description = jsdoc.description`). -/
def setDescription (d : Decl) (desc : Option String) : Decl :=
  match d with
  | .variableDecl b ts => .variableDecl { b with description := desc } ts
  | .constant b v => .constant { b with description := desc } v
  | .typedef b ts => .typedef { b with description := desc } ts
  | .importDecl b m l => .importDecl { b with description := desc } m l
  | .newInstance b t => .newInstance { b with description := desc } t
  | .identifier b n => .identifier { b with description := desc } n
  | .object b ms => .object { b with description := desc } ms
  | .classDecl b c ms => .classDecl { b with description := desc } c ms
  | .func f => .func { f with base := { f.base with description := desc } }

/-! ## Doctrine collaborator output (the `Doctrine` namespace of parser.ts) -/

/-- The doctrine type-expression grammar, as discriminated by parser.ts's
`Doctrine` type guards.  `otherType` stands for any further production tag
the grammar may emit. -/
inductive DocType where
  | nameExpression (name : String)
  | unionType (elements : List DocType)
  | functionType
  | typeApplication
  | optionalType
  | nonNullableType
  | otherType (tag : String)
deriving Repr

/-- The `type` discriminator string of a doctrine type-expression node. -/
def docTypeTag : DocType → String
  | .nameExpression _ => "NameExpression"
  | .unionType _ => "UnionType"
  | .functionType => "FunctionType"
  | .typeApplication => "TypeApplication"
  | .optionalType => "OptionalType"
  | .nonNullableType => "NonNullableType"
  | .otherType tag => tag

/-- A doctrine tag (`@param`, `@return`, `@typedef`, ...).  `description` and
`type` are `Option` because doctrine leaves them null when absent. -/
structure DocTag where
  title : String
  name : String
  description : Option String
  type : Option DocType
deriving Repr

/-- A parsed doctrine comment (`Doctrine.AST`). -/
structure DocAST where
  description : Option String
  tags : List DocTag
deriving Repr

/-- `parseJsDoc` from parser.ts: `comments && doctrine.parse(comments) ||
{ tags: [] }`.  A raw comment string is represented by the AST doctrine
returns for it, so the call collapses to supplying the fallback object
(which has no `description` field) when there is no comment. -/
def parseJsDoc (comments : Option DocAST) : DocAST :=
  match comments with
  | some ast => ast
  | none => { description := none, tags := [] }

/-! ## Type grammar adapter: parseJsDocType and matchType -/

mutual

/-- `parseJsDocType` from parser.ts: a union type expands to the flattened
list of its members' expansions, a name expression yields its (raw, possibly
`ns:Name`) name, and every other grammar production throws
`"ENOTSUPP: " + type.type`. -/
def parseJsDocType : DocType → Except String (List String)
  | .unionType elements => do
      let ls ← parseJsDocTypeList elements
      pure ls.flatten
  | .nameExpression name => pure [name]
  | t => .error ("ENOTSUPP: " ++ docTypeTag t)

/-- `elements.map(element => parseJsDocType(element))` with error
propagation. -/
def parseJsDocTypeList : List DocType → Except String (List (List String))
  | [] => pure []
  | t :: rest => do
      let l ← parseJsDocType t
      let ls ← parseJsDocTypeList rest
      pure (l :: ls)

end

/-- `parseJsDocType(tag.type)` where `tag.type` may be null: reading
`type.type` of null throws a TypeError at runtime. -/
def parseJsDocTypeOpt : Option DocType → Except String (List String)
  | some t => parseJsDocType t
  | none => .error "TypeError: Cannot read property of undefined (reading type)"

/-- The `typeMapping` alias table of parseCode. -/
def typeMapping : List (String × String) := [("Array", "any[]")]

/-- `MatchResult` from parser.ts.  Its `errors` field is declared but the
`matchType` body never pushes to it. -/
structure MatchResult where
  types : List Ty
  errors : List String
deriving Repr

/-- Split a character list on a separator character (JS `String.split`
semantics on the underlying characters).  `String.splitOn` is not
kernel-reducible, so the split is carried out on the character list. -/
def splitOnChar (c : Char) : List Char → List (List Char)
  | [] => [[]]
  | ch :: rest =>
      if ch = c then [] :: splitOnChar c rest
      else
        match splitOnChar c rest with
        | [] => [[ch]]
        | hd :: tl => (ch :: hd) :: tl

/-- JS `type.split(':', 2)`: split on `':'` and keep the first two parts. -/
def splitColon2 (s : String) : List String :=
  ((splitOnChar ':' s.data).map String.mk).take 2

/-- The per-name body of `matchType`: split on `:` keeping two parts (JS
`split(':', 2)`), take the second part as the name and the first as the
namespace when the second is truthy (non-empty), then apply the alias
table. -/
def matchOne (type : String) : Ty :=
  let parts := splitColon2 type
  let part1 := parts.headD ""
  match parts[1]? with
  | some p2 =>
      if p2 = "" then Ty.mk none ((lookupA typeMapping part1).getD part1) []
      else Ty.mk (some part1) ((lookupA typeMapping p2).getD p2) []
  | none => Ty.mk none ((lookupA typeMapping part1).getD part1) []

/-- `matchType` from parseCode. -/
def matchType (jsTypes : List String) : MatchResult :=
  { types := jsTypes.map matchOne, errors := [] }

/-! ## ESTree collaborator output

Only the node shapes parseCode actually inspects are modelled.  A function
body is the statement list of its `BlockStatement`; parseCode looks at each
top-level statement of a body only through `isReturnStatement`, so any
non-return statement is opaque (`otherBody`). -/

inductive BodyStmt where
  | ret
  | otherBody (kind : String)
deriving Repr, DecidableEq

inductive Expr where
  | identifier (name : String)
  | literal (value : JsVal)
  | functionExpression (params : List String) (body : List BodyStmt)
  | callExpression (callee : Expr) (args : List Expr)
  | arrayExpression (elements : List JsVal)
  | newExpression (callee : Expr)
  | objectExpression (properties : List (String × Expr))
  | memberExpression (object : Expr) (property : Expr)
  | assignmentExpression (left : Expr) (right : Expr)
  | binaryExpression
  | thisExpression
  | classDeclarationExpr
  | functionDeclarationExpr (params : List String) (body : List BodyStmt)
  | otherExpr (kind : String)
deriving Repr

/-- The ESTree `type` discriminator of an expression node. -/
def exprKind : Expr → String
  | .identifier _ => "Identifier"
  | .literal _ => "Literal"
  | .functionExpression _ _ => "FunctionExpression"
  | .callExpression _ _ => "CallExpression"
  | .arrayExpression _ => "ArrayExpression"
  | .newExpression _ => "NewExpression"
  | .objectExpression _ => "ObjectExpression"
  | .memberExpression _ _ => "MemberExpression"
  | .assignmentExpression _ _ => "AssignmentExpression"
  | .binaryExpression => "BinaryExpression"
  | .thisExpression => "ThisExpression"
  | .classDeclarationExpr => "ClassDeclaration"
  | .functionDeclarationExpr _ _ => "FunctionDeclaration"
  | .otherExpr kind => kind

/-- The declaration wrapped by an `ExportNamedDeclaration`. -/
inductive NamedDecl where
  | namedVar (declarations : List (String × Option Expr))
  | namedFunc (name : String) (params : List String) (body : List BodyStmt)
  | otherNamed (kind : String)
deriving Repr

structure ExportSpecifier where
  localName : String
  exportedName : String
deriving Repr

/-- A top-level statement as dispatched by parseCode's main `walk` call.
`variableDeclaration` carries its declarators as (identifier name, init)
pairs, matching the inner `walk(declarator.id, { Identifier })` pattern. -/
inductive Stmt where
  | variableDeclaration (declarations : List (String × Option Expr))
  | functionDeclaration (name : String) (params : List String) (body : List BodyStmt)
  | expressionStatement (expression : Expr)
  | exportNamedDeclaration (declaration : Option NamedDecl)
      (specifiers : List ExportSpecifier) (source : Option String)
  | exportDefaultDeclaration (declaration : Expr)
  | exportAllDeclaration (source : String)
  | otherStmt (kind : String)
deriving Repr

/-- The ESTree `type` discriminator of a top-level statement. -/
def stmtKind : Stmt → String
  | .variableDeclaration _ => "VariableDeclaration"
  | .functionDeclaration _ _ _ => "FunctionDeclaration"
  | .expressionStatement _ => "ExpressionStatement"
  | .exportNamedDeclaration _ _ _ => "ExportNamedDeclaration"
  | .exportDefaultDeclaration _ => "ExportDefaultDeclaration"
  | .exportAllDeclaration _ => "ExportAllDeclaration"
  | .otherStmt kind => kind

/-- A top-level statement of `program.body` together with its attached
leading block comments (each represented by its doctrine parse, in source
order: earliest comment first). -/
structure TopStmt where
  leadingComments : List DocAST
  stmt : Stmt
deriving Repr

/-- The error raised by src/walk.ts when a node kind has no registered
handler.  Inside parseCode the traversal-path suffix of the message is not
relevant to any claim below, so the embedded parseCode reports only the
fixed prefix and the offending kind; the full path behaviour of `walk` is
modelled separately in the `Walk` section. -/
def unhandledNode (kind : String) : String :=
  "Unexpected node type: " ++ kind

/-! ## getFunctionExport -/

/-- Message pushed when a function parameter has no documented type. -/
def paramNotSpecified (name : String) : String :=
  "parameter \"" ++ name ++ "\" type is not specified"

/-- Message pushed when a function returns but has no `@return` tag. -/
def returnNotSpecified : String := "return type is not specified"

/-- `_.keyBy(param, tag => tag.name)` followed by a key lookup: the tag
whose name matches, later tags overriding earlier ones. -/
def jsdocParamFor (paramTags : List DocTag) (name : String) : Option DocTag :=
  (paramTags.filter (fun t => t.name == name)).getLast?

/-- `_.flatten(returns.map(r => parseJsDocType(r.type)))`. -/
def parseTagTypes (tags : List DocTag) : Except String (List String) := do
  let ls ← tags.mapM (fun r => parseJsDocTypeOpt r.type)
  pure ls.flatten

/-- The body scan of `getFunctionExport`: for every top-level
`ReturnStatement` of the function body, the result is reset to `[any]` and
then, if `@return` tags exist, replaced by their matched types (with the
match's errors appended); otherwise a `return type is not specified`
diagnostic is appended. -/
def scanReturns (returnTags : List DocTag) :
    List BodyStmt → List Ty × List ExportError → Except String (List Ty × List ExportError)
  | [], st => pure st
  | .ret :: rest, st => do
      let st1 := ([Ty.mk none "any" []], st.2)
      let st2 ←
        if returnTags.isEmpty then
          pure (st1.1, st1.2 ++ [⟨returnNotSpecified⟩])
        else do
          let ts ← parseTagTypes returnTags
          let m := matchType ts
          pure (m.types, st1.2 ++ m.errors.map (fun message => ⟨message⟩))
      scanReturns returnTags rest st2
  | .otherBody _ :: rest, st => scanReturns returnTags rest st

/-- The `params.map(...)` of `getFunctionExport`, producing the parameter
list, the errors pushed onto the function declaration, and the errors pushed
onto `theModule.errors` (the latter are the match errors of documented
parameters, threaded explicitly here instead of mutating the module). -/
def buildParam1 (docFor : String → Option DocTag) (name : String) :
    Except String (Parameter × List ExportError × List ExportError) :=
  match docFor name with
  | some tag =>
      match tag.type with
      | some ty => do
          let ts ← parseJsDocType ty
          let m := matchType ts
          pure ((⟨name, tag.description, m.types⟩ : Parameter),
                ([] : List ExportError),
                m.errors.map (fun message => (⟨message⟩ : ExportError)))
      | none =>
          pure ((⟨name, tag.description, [Ty.mk none "any" []]⟩ : Parameter),
                [(⟨paramNotSpecified name⟩ : ExportError)], ([] : List ExportError))
  | none =>
      pure ((⟨name, none, [Ty.mk none "any" []]⟩ : Parameter),
            [(⟨paramNotSpecified name⟩ : ExportError)], ([] : List ExportError))

def buildParams (docFor : String → Option DocTag) :
    List String → Except String (List Parameter × List ExportError × List ExportError)
  | [] => pure ([], [], [])
  | name :: rest => do
      let r1 ← buildParam1 docFor name
      let r2 ← buildParams docFor rest
      pure (r1.1 :: r2.1, r1.2.1 ++ r2.2.1, r1.2.2 ++ r2.2.2)

/-- `getFunctionExport` from parseCode.  Returns the function declaration
together with the errors it pushed onto `theModule.errors`. -/
def getFunctionExport (params : List String) (body : List BodyStmt)
    (comments : Option DocAST) : Except String (FunctionDecl × List ExportError) := do
  let jsdoc := parseJsDoc comments
  let paramTags := jsdoc.tags.filter (fun t => t.title == "param")
  let returnTags := jsdoc.tags.filter (fun t => t.title == "return")
  let scanned ← scanReturns returnTags body ([Ty.mk none "void" []], [])
  let built ← buildParams (jsdocParamFor paramTags) params
  pure ({ base := { exported := false, description := jsdoc.description,
                    errors := scanned.2 ++ built.2.1 },
          params := built.1, result := some scanned.1 }, built.2.2)

/-! ## getExport -/

/-- The `argument.value as string` cast in the `require` branch: the runtime
stores the raw literal value; only string paths occur in practice. -/
def jsValAsString : JsVal → String
  | .str s => s
  | _ => ""

mutual

/-- `getExport` from parseCode: dispatch on the right-hand expression's
kind; kinds with no handler raise the walk error.  After the dispatch the
code unconditionally overwrites `e.description` with `jsdoc.description`
(the `if (jsdoc)` guard is always true since `parseJsDoc` always returns an
object).  Returns the inferred declaration together with the errors pushed
onto `theModule.errors`. -/
def getExport (node : Expr) (comments : Option DocAST) :
    Except String (Decl × List ExportError) := do
  let jsdoc := parseJsDoc comments
  let (e, modErrs) ←
    (match node with
    | .functionExpression ps body => do
        let (f, m) ← getFunctionExport ps body comments
        pure ((Decl.func f : Decl), m)
    | .identifier n => pure ((Decl.identifier newBase n : Decl), ([] : List ExportError))
    | .arrayExpression elements =>
        pure ((Decl.constant newBase (JsVal.arr elements) : Decl), ([] : List ExportError))
    | .newExpression callee =>
        (match callee with
        | .identifier n =>
            pure ((Decl.newInstance newBase (Ty.mk none n []) : Decl), ([] : List ExportError))
        | c => .error (unhandledNode (exprKind c)))
    | .objectExpression properties => do
        let (ms, m) ← getExportProps properties [] []
        pure ((Decl.object newBase ms : Decl), m)
    | .literal v =>
        pure ((Decl.constant { newBase with description := jsdoc.description } v : Decl),
              ([] : List ExportError))
    | .classDeclarationExpr =>
        pure ((Decl.classDecl newBase none [] : Decl), ([] : List ExportError))
    | .binaryExpression =>
        pure ((Decl.constant newBase JsVal.emptyObject : Decl), ([] : List ExportError))
    | .functionDeclarationExpr ps body => do
        let (f, m) ← getFunctionExport ps body comments
        pure ((Decl.func f : Decl), m)
    | other => .error (unhandledNode (exprKind other)))
  pure (setDescription e jsdoc.description, modErrs)

/-- The `_.reduce(node.properties, (prev, current) => _.assign(prev, {...}))`
of the `ObjectExpression` handler: each property value is inferred with no
comment attached and assigned into the member map. -/
def getExportProps (properties : List (String × Expr))
    (acc : List (String × Decl)) (errs : List ExportError) :
    Except String (List (String × Decl) × List ExportError) :=
  match properties with
  | [] => pure (acc, errs)
  | (k, v) :: rest => do
      let (d, m) ← getExport v none
      getExportProps rest (setA acc k d) (errs ++ m)

end

/-! ## getObjectPath and the assignment target helpers -/

/-- `getObjectPath` from parser.ts: flatten a qualifier chain to a dotted
path string; any node other than an identifier or member expression raises
the walk error. -/
def getObjectPath : Expr → Except String String
  | .identifier n => pure n
  | .memberExpression o p => do
      let a ← getObjectPath o
      let b ← getObjectPath p
      pure (a ++ "." ++ b)
  | e => .error (unhandledNode (exprKind e))

/-- `assignment.object.match(/\.prototype$/)`: suffix test, implemented over
the character list so it can be reasoned about. -/
def endsWithDotPrototype (s : String) : Bool :=
  List.isSuffixOf ".prototype".data s.data

/-- `assignment.object.replace(/\.prototype$/, '')`, applied only on the
branch where the suffix is present: drop the ten-character suffix. -/
def stripDotPrototype (s : String) : String :=
  String.mk (s.data.take (s.data.length - ".prototype".data.length))

/-- The TypeError raised by `exportMap[assignment.property].exported = true`
when the map has no such entry. -/
def cannotSetExportedOfUndefined : String :=
  "TypeError: Cannot set property of undefined (setting exported)"

/-- The TypeError raised by `walk(undefined, ...)` reading `node.type`. -/
def walkOnUndefined : String :=
  "TypeError: Cannot read property of undefined (reading type)"

/-! ## parseCode: per-statement processing state -/

/-- The module state parseCode builds up: `theModule.items`,
`theModule.errors` and `theModule.exports`.  The growing `globalTypes`
whitelist is a separate piece of state: in the source it is a top-level
array mutated only by the `@typedef` collection loop, never by the
statement dispatch, so it is threaded only through that loop. -/
structure MState where
  items : List (String × Decl)
  moduleErrors : List ExportError
  exportsSlot : Option Decl
deriving Repr

/-- The full fold state: the module state plus the `globalTypes`
whitelist. -/
def PState : Type := MState × List String

/-- The initial `globalTypes` whitelist of parseCode. -/
def globalTypes0 : List String :=
  ["string", "String", "object", "number", "Function", "any", "Object", "void"]

/-- One `@typedef` collection step: the tag's type expression is parsed and
matched, a `TypeDefDeclaration` is registered under the tag's name, and the
name joins the `globalTypes` whitelist. -/
def collectTypedefTags (s : PState) (desc : Option String) :
    List DocTag → Except String PState
  | [] => pure s
  | tag :: rest => do
      let s1 ←
        if tag.title = "typedef" then do
          let jsDocTypes ← parseJsDocTypeOpt tag.type
          let m := matchType jsDocTypes
          let td : Decl := .typedef ⟨false, desc, []⟩ m.types
          pure (({ s.1 with items := setA s.1.items tag.name td }, s.2 ++ [tag.name]) : PState)
        else pure s
      collectTypedefTags s1 desc rest

/-- Scan the leading comments that precede the statement's own doc comment
(`lead`) for `@typedef` tags. -/
def collectTypedefs (s : PState) : List DocAST → Except String PState
  | [] => pure s
  | c :: rest => do
      let s1 ← collectTypedefTags s c.description c.tags
      collectTypedefs s1 rest

/-- The branch chain of the `AssignmentExpression` handler, applied to the
flattened assignment target (`assignment.object` / `assignment.property`). -/
def processAssignmentTarget (s : MState) (comments : Option DocAST)
    (objPath propPath : String) (right : Expr) : Except String MState := do
  if objPath = "module" ∧ propPath = "exports" then do
    let (d, m) ← getExport right comments
    pure { s with exportsSlot := some d, moduleErrors := s.moduleErrors ++ m }
  else if objPath = "exports" ∨ objPath = "module.exports" then do
    let (lookup, m) ← getExport right comments
    let items1 :=
      match lookup with
      | .identifier _ _ => s.items
      | d => setA s.items propPath d
    match lookupA items1 propPath with
    | none => .error cannotSetExportedOfUndefined
    | some d =>
        pure { s with
               items := setA items1 propPath (setExported d)
               moduleErrors := s.moduleErrors ++ m }
  else if endsWithDotPrototype objPath then do
    let className := stripDotPrototype objPath
    let items1 :=
      match lookupA s.items className with
      | some (.func f) => setA s.items className (.classDecl newBase (some f) [])
      | _ => s.items
    match lookupA items1 className with
    | some (Decl.classDecl b ctor members) => do
        let (d, m) ← getExport right comments
        pure { s with
               items := setA items1 className (.classDecl b ctor (setA members propPath d))
               moduleErrors := s.moduleErrors ++ m }
    | _ => pure s
  else
    pure s

/-- The `AssignmentExpression` handler of parseCode's statement dispatch:
flatten the left-hand member expression to a dotted path (any other
left-hand node kind raises the walk error, and `this` raises
`Not Implemented`), then take the branch the path selects. -/
def processAssignment (s : MState) (comments : Option DocAST)
    (left right : Expr) : Except String MState := do
  let target ←
    (match left with
    | .memberExpression o p => do
        let a ← getObjectPath o
        let b ← getObjectPath p
        pure (a, b)
    | .thisExpression => .error "Not Implemented"
    | e => .error (unhandledNode (exprKind e)))
  processAssignmentTarget s comments target.1 target.2 right

/-- The `VariableDeclaration` handler: one declarator at a time.  A missing
initializer crashes `walk` (reading `type` of `undefined`); an initializer
kind with no handler raises the walk error; a `require` call with one
literal argument registers an import. -/
def processDeclarators (s : MState) (comments : Option DocAST) :
    List (String × Option Expr) → Except String MState
  | [] => pure s
  | (name, init) :: rest => do
      let s1 ←
        (match init with
        | none => .error walkOnUndefined
        | some (.functionExpression ps body) => do
            let (f, m) ← getFunctionExport ps body comments
            pure { s with
                   items := setA s.items name (.func f)
                   moduleErrors := s.moduleErrors ++ m }
        | some (.literal v) => do
            let (d, m) ← getExport (.literal v) comments
            pure { s with
                   items := setA s.items name d
                   moduleErrors := s.moduleErrors ++ m }
        | some (.callExpression callee args) =>
            (match callee with
            | .identifier calleeName =>
                if calleeName = "require" ∧ args.length = 1 then
                  match args with
                  | [.literal v] =>
                      let imp : Decl := .importDecl newBase (jsValAsString v) none
                      pure { s with items := setA s.items name imp }
                  | [arg] => .error (unhandledNode (exprKind arg))
                  | _ => pure s
                else pure s
            | c => .error (unhandledNode (exprKind c)))
        | some e => .error (unhandledNode (exprKind e)))
      processDeclarators s1 comments rest

/-- The declarator handling inside `ExportNamedDeclaration`: register the
initializer's inferred declaration (or an `any` variable when there is no
initializer) and mark it exported. -/
def processNamedVarDeclarators (s : MState) (comments : Option DocAST) :
    List (String × Option Expr) → Except String MState
  | [] => pure s
  | (name, init) :: rest => do
      let s1 ←
        (match init with
        | some e => do
            let (d, m) ← getExport e comments
            pure { s with
                   items := setA s.items name d
                   moduleErrors := s.moduleErrors ++ m }
        | none =>
            pure { s with items := setA s.items name (.variableDecl newBase [Ty.mk none "any" []]) })
      let s2 :=
        match lookupA s1.items name with
        | some d => { s1 with items := setA s1.items name (setExported d) }
        | none => s1
      processNamedVarDeclarators s2 comments rest

/-- One `ExportSpecifier`: an import re-export when a source module is
present, otherwise an `any` variable under the exported name. -/
def processSpecifier (source : Option String) (s : MState)
    (sp : ExportSpecifier) : MState :=
  match source with
  | some src =>
      let imp : Decl := .importDecl { newBase with exported := true } src (some sp.localName)
      { s with items := setA s.items sp.exportedName imp }
  | none =>
      let v : Decl := .variableDecl { newBase with exported := true } [Ty.mk none "any" []]
      { s with items := setA s.items sp.exportedName v }

/-- parseCode's top-level statement dispatch (the big `walk(node, {...})`). -/
def dispatchStmt (s : MState) (comments : Option DocAST) :
    Stmt → Except String MState
  | .variableDeclaration declarations => processDeclarators s comments declarations
  | .functionDeclaration name ps body => do
      let (f, m) ← getFunctionExport ps body comments
      pure { s with
             items := setA s.items name (.func f)
             moduleErrors := s.moduleErrors ++ m }
  | .expressionStatement e =>
      (match e with
      | .literal _ => pure s
      | .assignmentExpression left right => processAssignment s comments left right
      | .callExpression _ _ => .error "Not implemented"
      | other => .error (unhandledNode (exprKind other)))
  | .exportNamedDeclaration declaration specifiers source => do
      let s1 ←
        (match declaration with
        | none => pure s
        | some (.namedVar declarations) => processNamedVarDeclarators s comments declarations
        | some (.namedFunc name ps body) => do
            let (f, m) ← getFunctionExport ps body comments
            pure { s with
                   items := setA s.items name (setExported (.func f))
                   moduleErrors := s.moduleErrors ++ m }
        | some (.otherNamed kind) => .error (unhandledNode kind))
      pure (specifiers.foldl (processSpecifier source) s1)
  | .exportDefaultDeclaration declaration => do
      let (d, m) ← getExport declaration comments
      pure { s with
             items := setA s.items "default" (setExported d)
             moduleErrors := s.moduleErrors ++ m }
  | .exportAllDeclaration source =>
      let imp : Decl := .importDecl newBase source (some "*")
      pure { s with items := setA s.items "*" (setExported imp) }
  | .otherStmt kind => .error (unhandledNode kind)

/-- Process one statement of `program.body`: split its leading comments into
the statement's own doc comment (the last one) and the preceding `lead`
comments, scan the latter for `@typedef` tags, then dispatch the
statement. -/
def processTopStmt (s : PState) (t : TopStmt) : Except String PState := do
  let vals := t.leadingComments.reverse
  let comments : Option DocAST := vals.head?
  let lead : List DocAST := vals.tail
  let s1 ← collectTypedefs s lead
  let m2 ← dispatchStmt s1.1 comments t.stmt
  pure (m2, s1.2)

/-! ## The post-pass validation sweep -/

/-- Sweep message for a variable type that failed the whitelist lookup. -/
def varNotFound (name : String) : String :=
  "Type \"" ++ name ++ "\" was not found"

/-- Sweep message for a parameter type that failed the whitelist lookup. -/
def paramNotFound (param tyName : String) : String :=
  "Parameter \"" ++ param ++ "\" type \"" ++ tyName ++ "\" was not found"

/-- Sweep message for a result type that failed the whitelist lookup. -/
def resultNotFound (tyName : String) : String :=
  "Result type \"" ++ tyName ++ "\" was not found"

/-- One validation loop of the sweep: a type passes when its namespace is
null and its name is on the whitelist; otherwise a diagnostic built from the
type's original name is recorded and the type is rewritten in place to
`{null, "any"}`. -/
def validateTypes (gts : List String) (mkMsg : String → String) :
    List Ty → List Ty × List ExportError
  | [] => ([], [])
  | t :: rest =>
      let r := validateTypes gts mkMsg rest
      if t.ns.isNone && gts.contains t.name then (t :: r.1, r.2)
      else (Ty.mk none "any" t.parameters :: r.1, ⟨mkMsg t.name⟩ :: r.2)

/-- The parameter loop of the sweep's `FunctionDeclaration` branch. -/
def validateParams (gts : List String) :
    List Parameter → List Parameter × List ExportError
  | [] => ([], [])
  | p :: rest =>
      let r1 := validateTypes gts (paramNotFound p.name) p.types
      let r2 := validateParams gts rest
      ({ p with types := r1.1 } :: r2.1, r1.2 ++ r2.2)

/-- The per-entry body of the sweep's `_.map(exportMap, ...)`: variables and
functions have their types validated against the whitelist, an identifier
whose target is not in the map is replaced by an empty placeholder constant,
and every other declaration kind is left untouched. -/
def validateDecl (gts : List String) (origItems : List (String × Decl)) :
    Decl → Decl
  | .variableDecl b types =>
      let r := validateTypes gts varNotFound types
      .variableDecl { b with errors := b.errors ++ r.2 } r.1
  | .func f =>
      let rp := validateParams gts f.params
      let rr :=
        match f.result with
        | some ts =>
            let r := validateTypes gts resultNotFound ts
            (some r.1, r.2)
        | none => (none, ([] : List ExportError))
      .func { f with
              base := { f.base with errors := f.base.errors ++ rp.2 ++ rr.2 }
              params := rp.1
              result := rr.1 }
  | .identifier b localName =>
      if (lookupA origItems localName).isNone then .constant newBase JsVal.emptyObject
      else .identifier b localName
  | d => d

/-- The whole sweep.  The source mutates the entries while iterating; since
no sweep action ever adds or removes a key, the only cross-entry read (the
existence check for an identifier's target) is equivalent against the
pre-sweep map, which is what `origItems` receives. -/
def sweepItems (gts : List String) (items : List (String × Decl)) :
    List (String × Decl) :=
  items.map (fun p => (p.1, validateDecl gts items p.2))

/-- `parseCode` from parser.ts (part_008 revision), starting from the
esprima output (`program.body` with attached comments): fold the statement
processor over the program, then run the validation sweep, and return the
module under its name. -/
def parseCode (program : List TopStmt) (moduleName : String) :
    Except String (List (String × ModuleDecl)) := do
  let init : PState := (⟨[], [], none⟩, globalTypes0)
  let s ← program.foldlM processTopStmt init
  let items := sweepItems s.2 s.1.items
  pure [(moduleName, ⟨items, s.1.moduleErrors, s.1.exportsSlot⟩)]

/-! ## Derived notions used by the claims -/

/-- The `@typedef` names contributed by one leading comment. -/
def typedefNamesOfComment (c : DocAST) : List String :=
  (c.tags.filter (fun t => t.title == "typedef")).map (fun t => t.name)

/-- The `@typedef` names a statement's `lead` comments contribute to the
whitelist. -/
def typedefNamesOfStmt (t : TopStmt) : List String :=
  (t.leadingComments.reverse.tail.map typedefNamesOfComment).flatten

/-- The recognized-type set of a source unit: the built-in globals plus
every `@typedef` name declared in it. -/
def recognizedTypeSet (program : List TopStmt) : List String :=
  globalTypes0 ++ (program.map typedefNamesOfStmt).flatten

/-- The types directly held by a function declaration. -/
def funcTypes (f : FunctionDecl) : List Ty :=
  (f.params.map (fun p => p.types)).flatten ++ (f.result.getD [])

mutual

/-- All `Type` nodes reachable in a declaration: the types of variables,
typedefs, new-instance targets, function parameters and results, and,
recursively, of class and object members (and the class constructor). -/
def declReachableTypes : Decl → List Ty
  | .variableDecl _ ts => ts
  | .constant _ _ => []
  | .typedef _ ts => ts
  | .importDecl _ _ _ => []
  | .newInstance _ t => [t]
  | .identifier _ _ => []
  | .object _ members => membersReachableTypes members
  | .classDecl _ ctor members =>
      (match ctor with
       | some f => funcTypes f
       | none => []) ++ membersReachableTypes members
  | .func f => funcTypes f

def membersReachableTypes : List (String × Decl) → List Ty
  | [] => []
  | (_, d) :: rest => declReachableTypes d ++ membersReachableTypes rest

end

/-- All `Type` nodes reachable in a returned module tree. -/
def moduleReachableTypes (m : ModuleDecl) : List Ty :=
  membersReachableTypes m.items ++
    (match m.exports with
     | some d => declReachableTypes d
     | none => [])

/-- A type name satisfies the spec's type-safety net at whitelist `gts`. -/
def tyOk (gts : List String) (t : Ty) : Bool :=
  t.ns.isNone && gts.contains t.name

/-- The property the validation sweep actually establishes, per top-level
item: every type directly held by a `VariableDeclaration` or a
`FunctionDeclaration` is namespace-free and on the whitelist. -/
def topLevelValidated (gts : List String) : Decl → Bool
  | .variableDecl _ ts => ts.all (tyOk gts)
  | .func f =>
      f.params.all (fun p => p.types.all (tyOk gts)) &&
        (match f.result with
         | some ts => ts.all (tyOk gts)
         | none => true)
  | _ => true

end Js2Typings

namespace Walk

/-! ## src/walk.ts: the syntax dispatcher

`walk` is modelled generically: a node is reduced to its `type`
discriminator plus an opaque payload, the handler mapping is a partial map
from kind to handler, and the shared mutable `actualPath` stack is threaded
as explicit state.  A handler receives the node and the current stack and
returns its result (possibly an error, modelling a thrown exception)
together with the stack as it left it; `walk` pushes the node's kind before
the dispatch and pops the last entry on every exit path (the `finally`
block). -/

/-- A syntax node as `walk` sees it: the `type` discriminator and an opaque
payload. -/
structure WNode (α : Type) where
  type : String
  payload : α

/-- The message of the error thrown on an unhandled node kind, with the
path stack as it stands after pushing the offending kind. -/
def unhandledMessage (kind : String) (path : List String) : String :=
  "Unexpected node type: " ++ kind ++ ". Actual path is: " ++
    String.intercalate " -> " path

/-- `walk` from src/walk.ts. -/
def walk {α T : Type}
    (handlers : String → Option (WNode α → List String → Except String T × List String))
    (node : WNode α) (stack : List String) : Except String T × List String :=
  let stack1 := stack ++ [node.type]
  match handlers node.type with
  | some step =>
      let (r, s2) := step node stack1
      (r, s2.dropLast)
  | none => (Except.error (unhandledMessage node.type stack1), stack1.dropLast)

end Walk

namespace Writer

open Js2Typings

/-! ## src/writer.ts: formatType

`formatType(types)` returns `'void'` only when `types` is null/undefined;
a (possibly empty) array takes the `types.map(...).join(' | ')` branch,
because an empty JS array is truthy.  The generic-parameter branch of the
map callback invokes `this.formatType`, and `formatType` is a plain
function, so `this` is not bound and that branch throws a TypeError at
runtime; it is modelled as an error (no type constructed by the parser ever
carries parameters, so the branch is dead in practice). -/

def formatType (types : Option (List Ty)) : Except String String :=
  match types with
  | some ts => do
      let parts ← ts.mapM (fun t =>
        if t.parameters.length > 0 then
          Except.error "TypeError: this.formatType is not a function"
        else pure t.name)
      pure (String.intercalate " | " parts)
  | none => pure "void"

end Writer

namespace Js2Typings

/-- The doctrine grammar productions that `parseJsDocType` does not expand
(everything except union types and name expressions). -/
def isUnsupportedDocType : DocType → Bool
  | .nameExpression _ => false
  | .unionType _ => false
  | _ => true

/-- The `@param` tags of a function's doc comment, as grouped by
`getFunctionExport`. -/
def paramTagsOf (comments : Option DocAST) : List DocTag :=
  (parseJsDoc comments).tags.filter (fun t => t.title == "param")

/-- The `@return` tags of a function's doc comment, as grouped by
`getFunctionExport`. -/
def returnTagsOf (comments : Option DocAST) : List DocTag :=
  (parseJsDoc comments).tags.filter (fun t => t.title == "return")

/-- The leading-comment list of a statement that has exactly the given doc
comment attached (and no earlier comments). -/
def singletonComments : Option DocAST → List DocAST
  | none => []
  | some c => [c]

/-- Counterexample program for C1: a function `Widget` promoted to a class
by a prototype assignment whose member function has a parameter documented
with the unknown type `Sprocket`. -/
def c1Program : List TopStmt :=
  [⟨[], .functionDeclaration "Widget" [] []⟩,
   ⟨[⟨none, [⟨"param", "x", none, some (.nameExpression "Sprocket")⟩]⟩],
    .expressionStatement (.assignmentExpression
      (.memberExpression
        (.memberExpression (.identifier "Widget") (.identifier "prototype"))
        (.identifier "open"))
      (.functionExpression ["x"] []))⟩]

/-- Counterexample program for C2: a function whose parameter is documented
with the namespaced type `external:String`. -/
def c2Program : List TopStmt :=
  [⟨[⟨none, [⟨"param", "x", none, some (.nameExpression "external:String")⟩]⟩],
    .functionDeclaration "f" ["x"] []⟩]

end Js2Typings


/-! # Claims -/

section Claims

open Js2Typings

/-! ## C9: formatType on an empty result list -/

/-- Claim C9 (counterexample): `formatType` applied to an *empty list* of
types does not return `"void"`; it returns the empty string, because an
empty JS array is truthy and takes the join branch.  The `"void"` fallback
fires only for a null/undefined list. -/
theorem C9_counterexample :
    Writer.formatType (some []) = Except.ok "" ∧
      Writer.formatType (some []) ≠ Except.ok "void" := by
  constructor
  · rfl
  · intro h
    rw [show Writer.formatType (some []) = Except.ok "" from rfl] at h
    exact absurd (Except.ok.inj h) (by decide)

/-- Claim C9 (amended): `formatType` renders `void` exactly when the type
list is absent (null/undefined); an empty list renders as the empty
string. -/
theorem C9_theorem :
    Writer.formatType none = Except.ok "void" ∧
      Writer.formatType (some []) = Except.ok "" :=
  ⟨rfl, rfl⟩

/-! ## C7 and C8: the syntax dispatcher -/

/-- Claim C7: for a node whose kind has no registered handler, `walk`
returns the `UnhandledNodeKind` error, whose message is built from the
unhandled kind and the (non-empty) accumulated ancestor-kind path including
that kind; for a node whose kind has a registered handler, `walk` returns
that handler's result. -/
theorem C7_theorem {α T : Type}
    (handlers : String → Option (Walk.WNode α → List String → Except String T × List String))
    (node : Walk.WNode α) (stack : List String) :
    (handlers node.type = none →
      (Walk.walk handlers node stack).1 =
          Except.error (Walk.unhandledMessage node.type (stack ++ [node.type])) ∧
        stack ++ [node.type] ≠ [] ∧
        Walk.unhandledMessage node.type (stack ++ [node.type]) =
          "Unexpected node type: " ++ node.type ++
            (". Actual path is: " ++ String.intercalate " -> " (stack ++ [node.type]))) ∧
    (∀ step, handlers node.type = some step →
      (Walk.walk handlers node stack).1 = (step node (stack ++ [node.type])).1) := by
  constructor
  · intro h
    refine ⟨?_, by simp, ?_⟩
    · simp [Walk.walk, h]
    · simp [Walk.unhandledMessage, String.append_assoc]
  · intro step h
    simp [Walk.walk, h]

/-- Witness for C7 at concrete inputs: a handler map registering only
`Identifier`, probed with an unhandled `Literal` node and with a handled
`Identifier` node. -/
theorem C7_witness :
    ((Walk.walk
        (fun k => if k = "Identifier"
          then some (fun (_ : Walk.WNode Unit) s => (Except.ok 7, s)) else none)
        ⟨"Literal", ()⟩ ["Program"]).1 =
      Except.error (Walk.unhandledMessage "Literal" (["Program"] ++ ["Literal"])) ∧
      ["Program"] ++ ["Literal"] ≠ ([] : List String) ∧
      Walk.unhandledMessage "Literal" (["Program"] ++ ["Literal"]) =
        "Unexpected node type: " ++ "Literal" ++
          (". Actual path is: " ++ String.intercalate " -> " (["Program"] ++ ["Literal"]))) ∧
    (Walk.walk
        (fun k => if k = "Identifier"
          then some (fun (_ : Walk.WNode Unit) s => (Except.ok 7, s)) else none)
        ⟨"Identifier", ()⟩ ["Program"]).1 =
      ((fun (_ : Walk.WNode Unit) s => ((Except.ok 7 : Except String Nat), s))
        ⟨"Identifier", ()⟩ (["Program"] ++ ["Identifier"])).1 := by
  constructor
  · exact (C7_theorem _ ⟨"Literal", ()⟩ ["Program"]).1 (by simp)
  · exact (C7_theorem _ ⟨"Identifier", ()⟩ ["Program"]).2
      (fun (_ : Walk.WNode Unit) s => (Except.ok 7, s)) (by simp)

/-- Claim C8: provided the dispatched handler leaves the shared path stack
as it found it (every handler in the codebase does: it only runs nested
`walk` calls, which restore it), `walk` restores the stack to exactly its
pre-call contents on every exit path — the pushed kind is popped both on
the unhandled-kind error and around the handler's result. -/
theorem C8_theorem {α T : Type}
    (handlers : String → Option (Walk.WNode α → List String → Except String T × List String))
    (node : Walk.WNode α) (stack : List String)
    (hpres : ∀ step, handlers node.type = some step →
      ∀ s, (step node s).2 = s) :
    (Walk.walk handlers node stack).2 = stack := by
  unfold Walk.walk
  cases h : handlers node.type with
  | none => simp [List.dropLast_concat]
  | some step => simp [hpres step h, List.dropLast_concat]

/-- Witness for C8 at concrete inputs: a path-preserving handler map, one
call hitting the handler and one hitting the unhandled-kind error. -/
theorem C8_witness :
    (Walk.walk
        (fun k => if k = "Identifier"
          then some (fun (_ : Walk.WNode Unit) s => (Except.ok 7, s)) else none)
        ⟨"Identifier", ()⟩ ["Program", "ExpressionStatement"]).2 =
      ["Program", "ExpressionStatement"] ∧
    (Walk.walk
        (fun k => if k = "Identifier"
          then some (fun (_ : Walk.WNode Unit) s => (Except.ok 7, s)) else none)
        ⟨"Literal", ()⟩ ["Program", "ExpressionStatement"]).2 =
      ["Program", "ExpressionStatement"] := by
  constructor
  · exact C8_theorem _ ⟨"Identifier", ()⟩ _
      (by intro step h s; simp at h; subst h; rfl)
  · exact C8_theorem _ ⟨"Literal", ()⟩ _ (by intro step h s; simp at h)

end Claims

section ClaimsB

open Js2Typings

/-! ## C6: the type grammar adapter -/

/-- If every element of a union parses, the list parser collects the
results in order. -/
theorem parseJsDocTypeList_of_forall2 (els : List DocType) (ls : List (List String))
    (h : List.Forall₂ (fun e l => parseJsDocType e = Except.ok l) els ls) :
    parseJsDocTypeList els = Except.ok ls := by
  induction h with
  | nil => rfl
  | cons h1 _ ih =>
      simp only [parseJsDocTypeList, h1, ih]
      rfl

/-- Claim C6: the type grammar adapter (`parseJsDocType` + `matchType`)
maps a union to the order-preserving concatenation of its members'
expansions (duplicates kept); splits a documented name `ns:Name` into
namespace and name (a plain name gets a null namespace); rewrites the
documented name `Array` to the array-of-any name; and fails with
`ENOTSUPP: <tag>` on every other grammar production. -/
theorem C6_theorem :
    (∀ (els : List DocType) (ls : List (List String)),
        List.Forall₂ (fun e l => parseJsDocType e = Except.ok l) els ls →
        parseJsDocType (DocType.unionType els) = Except.ok ls.flatten) ∧
    (∀ (s nsPart nm : String), splitColon2 s = [nsPart, nm] → nm ≠ "" → nm ≠ "Array" →
        matchOne s = Ty.mk (some nsPart) nm []) ∧
    (∀ (s nm : String), splitColon2 s = [nm] → nm ≠ "Array" →
        matchOne s = Ty.mk none nm []) ∧
    matchOne "Array" = Ty.mk none "any[]" [] ∧
    (∀ t : DocType, isUnsupportedDocType t = true →
        parseJsDocType t = Except.error ("ENOTSUPP: " ++ docTypeTag t)) := by
  refine ⟨?_, ?_, ?_, ?_, ?_⟩
  · intro els ls h
    simp only [parseJsDocType, parseJsDocTypeList_of_forall2 els ls h]
    rfl
  · intro s nsPart nm h1 h2 h3
    simp [matchOne, h1, typeMapping, lookupA, h2, Ne.symm h3]
  · intro s nm h1 h3
    simp [matchOne, h1, typeMapping, lookupA, Ne.symm h3]
  · rfl
  · intro t h
    cases t <;> simp_all [isUnsupportedDocType, parseJsDocType, docTypeTag]

/-- Witness for C6 at concrete inputs: a two-member union with duplicate
expansions, a namespaced name, a plain name, and an unsupported function
type. -/
theorem C6_witness :
    parseJsDocType (DocType.unionType
        [DocType.nameExpression "number", DocType.nameExpression "number"]) =
      Except.ok (List.flatten [["number"], ["number"]]) ∧
    matchOne "external:Promise" = Ty.mk (some "external") "Promise" [] ∧
    matchOne "number" = Ty.mk none "number" [] ∧
    parseJsDocType DocType.functionType =
      Except.error ("ENOTSUPP: " ++ docTypeTag DocType.functionType) := by
  refine ⟨?_, ?_, ?_, ?_⟩
  · exact C6_theorem.1 _ [["number"], ["number"]]
      (.cons rfl (.cons rfl .nil))
  · exact C6_theorem.2.1 "external:Promise" "external" "Promise" (by decide)
      (by decide) (by decide)
  · exact C6_theorem.2.2.1 "number" "number" (by decide) (by decide)
  · exact C6_theorem.2.2.2.2 DocType.functionType (by decide)

end ClaimsB

section ClaimsC

open Js2Typings

/-! ## Helper lemmas for the getFunctionExport claims -/

@[simp] theorem okBind {ε α β : Type} (a : α) (f : α → Except ε β) :
    (Except.ok a : Except ε α) >>= f = f a := rfl

@[simp] theorem errBind {ε α β : Type} (e : ε) (f : α → Except ε β) :
    (Except.error e : Except ε α) >>= f = Except.error e := rfl

@[simp] theorem pureExcept {ε α : Type} (a : α) :
    (pure a : Except ε α) = Except.ok a := rfl

theorem paramNotSpecified_inj {a b : String}
    (h : paramNotSpecified a = paramNotSpecified b) : a = b := by
  have h2 := congrArg String.data h
  simp only [paramNotSpecified, String.data_append] at h2
  rw [List.append_assoc, List.append_assoc] at h2
  have h3 := List.append_cancel_left h2
  have h4 := List.append_cancel_right h3
  exact String.ext h4

theorem paramNotSpecified_ne_return (n : String) :
    paramNotSpecified n ≠ returnNotSpecified := by
  intro h
  have h2 := congrArg (fun s => s.data.head?) h
  simp only [paramNotSpecified, returnNotSpecified, String.data_append] at h2
  simp at h2

/-- `matchType` never records errors: its `errors` list is born empty and
never pushed to. -/
@[simp] theorem matchType_errors (l : List String) : (matchType l).errors = [] := rfl

theorem scanReturns_no_ret (rt : List DocTag) (body : List BodyStmt)
    (st : List Ty × List ExportError) (h : BodyStmt.ret ∉ body) :
    scanReturns rt body st = .ok st := by
  induction body generalizing st with
  | nil => rfl
  | cons hd tl ih =>
      cases hd with
      | ret => exact absurd (List.mem_cons_self _ _) h
      | otherBody k => exact ih st (fun hm => h (List.mem_cons_of_mem _ hm))

theorem scanReturns_nil_tags (body : List BodyStmt) (r0 : List Ty) (e0 : List ExportError) :
    scanReturns [] body (r0, e0) =
      .ok ((if BodyStmt.ret ∈ body then [Ty.mk none "any" []] else r0),
        e0 ++ List.replicate (body.count BodyStmt.ret) (⟨returnNotSpecified⟩ : ExportError)) := by
  induction body generalizing r0 e0 with
  | nil => simp [scanReturns]
  | cons hd tl ih =>
      cases hd with
      | ret =>
          have step : scanReturns [] (BodyStmt.ret :: tl) (r0, e0) =
              scanReturns [] tl ([Ty.mk none "any" []],
                e0 ++ [(⟨returnNotSpecified⟩ : ExportError)]) := rfl
          rw [step, ih]
          have hcount : (BodyStmt.ret :: tl).count BodyStmt.ret = tl.count BodyStmt.ret + 1 :=
            List.count_cons_self _ _
          rw [hcount]
          simp [List.mem_cons, List.replicate_succ, List.append_assoc, ite_self]
      | otherBody k =>
          have step : scanReturns [] (BodyStmt.otherBody k :: tl) (r0, e0) =
              scanReturns [] tl (r0, e0) := rfl
          rw [step, ih]
          have hne : BodyStmt.ret ≠ BodyStmt.otherBody k := by simp
          rw [List.count_cons_of_ne hne]
          simp [List.mem_cons]

theorem scanReturns_with_tags (rt : List DocTag) (ts : List String)
    (body : List BodyStmt) (r0 : List Ty) (e0 : List ExportError)
    (hne : rt ≠ []) (hts : parseTagTypes rt = .ok ts) :
    scanReturns rt body (r0, e0) =
      .ok ((if BodyStmt.ret ∈ body then (matchType ts).types else r0), e0) := by
  have hie : rt.isEmpty = false := by
    cases rt with
    | nil => exact absurd rfl hne
    | cons a l => rfl
  induction body generalizing r0 with
  | nil => simp [scanReturns]
  | cons hd tl ih =>
      cases hd with
      | ret =>
          simp only [scanReturns, hie, Bool.false_eq_true, if_false, hts, okBind,
            matchType_errors, List.map_nil, List.append_nil, pureExcept]
          rw [ih]
          simp [List.mem_cons, ite_self]
      | otherBody k =>
          have step : scanReturns rt (BodyStmt.otherBody k :: tl) (r0, e0) =
              scanReturns rt tl (r0, e0) := rfl
          rw [step, ih]
          simp [List.mem_cons]

theorem scanReturns_errors (rt : List DocTag) (body : List BodyStmt)
    (st : List Ty × List ExportError) (r : List Ty) (e : List ExportError)
    (h : scanReturns rt body st = .ok (r, e)) :
    ∀ x ∈ e, x ∈ st.2 ∨ x.message = returnNotSpecified := by
  induction body generalizing st with
  | nil =>
      cases st with
      | mk a b =>
          simp only [scanReturns] at h
          injection h with h
          injection h with h1 h2
          subst h2
          intro x hx
          exact Or.inl hx
  | cons hd tl ih =>
      cases hd with
      | otherBody k => exact ih st h
      | ret =>
          by_cases hie : rt.isEmpty
          · have step : scanReturns rt (BodyStmt.ret :: tl) st =
                scanReturns rt tl (([Ty.mk none "any" []], st.2).1,
                  st.2 ++ [(⟨returnNotSpecified⟩ : ExportError)]) := by
              simp only [scanReturns, hie, if_true, pureExcept, okBind]
            rw [step] at h
            intro x hx
            rcases ih _ h x hx with h2 | h2
            · rcases List.mem_append.mp h2 with h3 | h3
              · exact Or.inl h3
              · right
                rcases List.mem_singleton.mp h3 with rfl
                rfl
            · exact Or.inr h2
          · have hie2 : rt.isEmpty = false := by
              cases hh : rt.isEmpty
              · rfl
              · exact absurd hh hie
            cases hts : parseTagTypes rt with
            | error msg =>
                have step : scanReturns rt (BodyStmt.ret :: tl) st =
                    Except.error msg := by
                  simp only [scanReturns, hie2, Bool.false_eq_true, if_false, hts, errBind]
                rw [step] at h
                exact absurd h (by simp)
            | ok ts =>
                have step : scanReturns rt (BodyStmt.ret :: tl) st =
                    scanReturns rt tl ((matchType ts).types, st.2) := by
                  simp only [scanReturns, hie2, Bool.false_eq_true, if_false, hts, okBind,
                    matchType_errors, List.map_nil, List.append_nil, pureExcept]
                rw [step] at h
                intro x hx
                exact ih _ h x hx

end ClaimsC

section ClaimsD

open Js2Typings

/-! ## Helper lemmas for buildParams -/

theorem buildParam1_name (docFor : String → Option DocTag) (n : String)
    (r1 : Parameter × List ExportError × List ExportError)
    (h : buildParam1 docFor n = .ok r1) : r1.1.name = n := by
  unfold buildParam1 at h
  cases hd : docFor n with
  | none =>
      rw [hd] at h
      injection h with h
      rw [← h]
  | some tag =>
      rw [hd] at h
      simp only [] at h
      cases ht : tag.type with
      | none =>
          rw [ht] at h
          simp only [] at h
          injection h with h
          rw [← h]
      | some ty =>
          rw [ht] at h
          simp only [] at h
          cases hp : parseJsDocType ty with
          | error msg => rw [hp] at h; exact absurd h (by simp)
          | ok ts =>
              rw [hp] at h
              simp only [okBind, pureExcept] at h
              injection h with h
              rw [← h]

theorem buildParam1_errors (docFor : String → Option DocTag) (n : String)
    (r1 : Parameter × List ExportError × List ExportError)
    (h : buildParam1 docFor n = .ok r1) :
    r1.2.1 = [] ∨ r1.2.1 = [(⟨paramNotSpecified n⟩ : ExportError)] := by
  unfold buildParam1 at h
  cases hd : docFor n with
  | none =>
      rw [hd] at h
      injection h with h
      rw [← h]
      exact Or.inr rfl
  | some tag =>
      rw [hd] at h
      simp only [] at h
      cases ht : tag.type with
      | none =>
          rw [ht] at h
          simp only [] at h
          injection h with h
          rw [← h]
          exact Or.inr rfl
      | some ty =>
          rw [ht] at h
          simp only [] at h
          cases hp : parseJsDocType ty with
          | error msg => rw [hp] at h; exact absurd h (by simp)
          | ok ts =>
              rw [hp] at h
              simp only [okBind, pureExcept] at h
              injection h with h
              rw [← h]
              exact Or.inl rfl

theorem buildParam1_undoc (docFor : String → Option DocTag) (n : String)
    (h : (docFor n).bind (fun t => t.type) = none) :
    buildParam1 docFor n =
      .ok (⟨n, (docFor n).bind (fun t => t.description), [Ty.mk none "any" []]⟩,
           [(⟨paramNotSpecified n⟩ : ExportError)], []) := by
  unfold buildParam1
  cases hd : docFor n with
  | none => rfl
  | some tag =>
      rw [hd] at h
      simp only [Option.some_bind] at h
      simp only []
      rw [h]
      rfl

theorem buildParam1_doc (docFor : String → Option DocTag) (n : String)
    (tag : DocTag) (ty : DocType) (ts : List String)
    (h1 : docFor n = some tag) (h2 : tag.type = some ty)
    (h3 : parseJsDocType ty = .ok ts) :
    buildParam1 docFor n = .ok (⟨n, tag.description, (matchType ts).types⟩, [], []) := by
  unfold buildParam1
  rw [h1]
  simp only []
  rw [h2]
  simp only []
  rw [h3]
  rfl

theorem buildParams_cons_eq (docFor : String → Option DocTag) (n : String)
    (rest : List String) (r : List Parameter × List ExportError × List ExportError)
    (h : buildParams docFor (n :: rest) = .ok r) :
    ∃ r1 r2, buildParam1 docFor n = .ok r1 ∧ buildParams docFor rest = .ok r2 ∧
      r = (r1.1 :: r2.1, r1.2.1 ++ r2.2.1, r1.2.2 ++ r2.2.2) := by
  simp only [buildParams] at h
  cases hb : buildParam1 docFor n with
  | error msg => rw [hb] at h; exact absurd h (by simp)
  | ok r1 =>
      rw [hb] at h
      simp only [okBind] at h
      cases hr : buildParams docFor rest with
      | error msg => rw [hr] at h; exact absurd h (by simp)
      | ok r2 =>
          rw [hr] at h
          simp only [okBind, pureExcept] at h
          injection h with h
          exact ⟨r1, r2, rfl, rfl, h.symm⟩

theorem buildParams_errors (docFor : String → Option DocTag) (params : List String)
    (r : List Parameter × List ExportError × List ExportError)
    (h : buildParams docFor params = .ok r) :
    ∀ x ∈ r.2.1, ∃ n, n ∈ params ∧ x = (⟨paramNotSpecified n⟩ : ExportError) := by
  induction params generalizing r with
  | nil =>
      simp only [buildParams, pureExcept] at h
      injection h with h
      rw [← h]
      intro x hx
      exact absurd hx (by simp)
  | cons hd tl ih =>
      obtain ⟨r1, r2, hb, hr, rfl⟩ := buildParams_cons_eq docFor hd tl r h
      intro x hx
      rcases List.mem_append.mp hx with h2 | h2
      · rcases buildParam1_errors docFor hd r1 hb with he | he
        · rw [he] at h2; exact absurd h2 (by simp)
        · rw [he] at h2
          rcases List.mem_singleton.mp h2 with rfl
          exact ⟨hd, List.mem_cons_self _ _, rfl⟩
      · obtain ⟨n, hn, rfl⟩ := ih r2 hr x h2
        exact ⟨n, List.mem_cons_of_mem _ hn, rfl⟩

theorem buildParams_count_zero (docFor : String → Option DocTag) (params : List String)
    (r : List Parameter × List ExportError × List ExportError) (name : String)
    (h : buildParams docFor params = .ok r) (hni : name ∉ params) :
    (r.2.1.filter (fun x => x.message == paramNotSpecified name)).length = 0 := by
  rw [List.length_eq_zero, List.filter_eq_nil_iff]
  intro a ha
  obtain ⟨n, hn, rfl⟩ := buildParams_errors docFor params r h a ha
  simp only [beq_iff_eq]
  intro hEq
  exact hni (paramNotSpecified_inj hEq ▸ hn)

end ClaimsD

section ClaimsE

open Js2Typings

/-- Destructuring of a successful `getFunctionExport` run into its body
scan and its parameter build. -/
theorem getFunctionExport_eq (params : List String) (body : List BodyStmt)
    (comments : Option DocAST) (f : FunctionDecl) (merr : List ExportError)
    (h : getFunctionExport params body comments = .ok (f, merr)) :
    ∃ scanned built,
      scanReturns (returnTagsOf comments) body ([Ty.mk none "void" []], []) = .ok scanned ∧
      buildParams (jsdocParamFor (paramTagsOf comments)) params = .ok built ∧
      f = { base := { exported := false, description := (parseJsDoc comments).description,
                      errors := scanned.2 ++ built.2.1 },
            params := built.1, result := some scanned.1 } ∧
      merr = built.2.2 := by
  simp only [getFunctionExport] at h
  cases hscan : scanReturns ((parseJsDoc comments).tags.filter (fun t => t.title == "return"))
      body ([Ty.mk none "void" []], []) with
  | error msg => rw [hscan] at h; exact absurd h (by simp)
  | ok scanned =>
      rw [hscan] at h
      simp only [okBind] at h
      cases hbuild : buildParams
          (jsdocParamFor ((parseJsDoc comments).tags.filter (fun t => t.title == "param")))
          params with
      | error msg => rw [hbuild] at h; exact absurd h (by simp)
      | ok built =>
          rw [hbuild] at h
          simp only [okBind, pureExcept] at h
          injection h with h
          refine ⟨scanned, built, hscan, hbuild, ?_, ?_⟩
          · exact (congrArg Prod.fst h).symm
          · exact (congrArg Prod.snd h).symm

/-- Claim C4: the result inference of `getFunctionExport` — no return
statement in the function body keeps the result `[void]` with no
return-related diagnostic; a return statement with documented `@return`
tags takes the result from the tags' matched types; a return statement
without `@return` yields `[any]` plus the `return type is not specified`
diagnostic. -/
theorem C4_theorem (params : List String) (body : List BodyStmt)
    (comments : Option DocAST) (f : FunctionDecl) (merr : List ExportError)
    (h : getFunctionExport params body comments = .ok (f, merr)) :
    (BodyStmt.ret ∉ body →
        f.result = some [Ty.mk none "void" []] ∧
        (⟨returnNotSpecified⟩ : ExportError) ∉ f.base.errors) ∧
    (∀ ts, BodyStmt.ret ∈ body → returnTagsOf comments ≠ [] →
        parseTagTypes (returnTagsOf comments) = .ok ts →
        f.result = some (matchType ts).types) ∧
    (BodyStmt.ret ∈ body → returnTagsOf comments = [] →
        f.result = some [Ty.mk none "any" []] ∧
        (⟨returnNotSpecified⟩ : ExportError) ∈ f.base.errors) := by
  obtain ⟨scanned, built, hscan, hbuild, hf, hm⟩ :=
    getFunctionExport_eq params body comments f merr h
  refine ⟨?_, ?_, ?_⟩
  · intro hni
    rw [scanReturns_no_ret _ _ _ hni] at hscan
    injection hscan with hscan
    constructor
    · rw [hf, ← hscan]
    · rw [hf]
      intro hmem
      rcases List.mem_append.mp hmem with h2 | h2
      · rw [← hscan] at h2
        exact absurd h2 (by simp)
      · obtain ⟨n, _, heq⟩ := buildParams_errors _ _ _ hbuild _ h2
        have : returnNotSpecified = paramNotSpecified n := congrArg ExportError.message heq
        exact paramNotSpecified_ne_return n this.symm
  · intro ts hmem hne hts
    rw [scanReturns_with_tags _ ts _ _ _ hne hts] at hscan
    injection hscan with hscan
    rw [hf, ← hscan]
    simp [hmem]
  · intro hmem hnil
    rw [hnil] at hscan
    rw [scanReturns_nil_tags] at hscan
    injection hscan with hscan
    constructor
    · rw [hf, ← hscan]
      simp [hmem]
    · rw [hf, ← hscan]
      have hc : body.count BodyStmt.ret ≠ 0 := by
        intro h0
        rw [← List.count_pos_iff] at hmem
        omega
      simp [List.mem_replicate, hc]

/-- Witness for C4 at concrete inputs: an empty body (void, no
diagnostic); a body with a return and a `@return {number}` tag; a body
with a return and no tags. -/
theorem C4_witness :
    ((BodyStmt.ret ∉ ([] : List BodyStmt) →
        ({ base := { exported := false, description := none, errors := [] },
           params := [], result := some [Ty.mk none "void" []] } : FunctionDecl).result =
            some [Ty.mk none "void" []] ∧
        (⟨returnNotSpecified⟩ : ExportError) ∉
          ({ base := { exported := false, description := none, errors := [] },
             params := [], result := some [Ty.mk none "void" []] } : FunctionDecl).base.errors)) ∧
    (({ base := { exported := false, description := some "d", errors := [] },
        params := [],
        result := some [Ty.mk none "number" []] } : FunctionDecl).result =
      some (matchType ["number"]).types) ∧
    (({ base := { exported := false, description := none,
                  errors := [⟨returnNotSpecified⟩] },
        params := [], result := some [Ty.mk none "any" []] } : FunctionDecl).result =
        some [Ty.mk none "any" []] ∧
      (⟨returnNotSpecified⟩ : ExportError) ∈
        ({ base := { exported := false, description := none,
                     errors := [⟨returnNotSpecified⟩] },
           params := [], result := some [Ty.mk none "any" []] } : FunctionDecl).base.errors) := by
  refine ⟨?_, ?_, ?_⟩
  · exact (C4_theorem [] [] none _ [] (by rfl)).1
  · exact (C4_theorem [] [BodyStmt.ret]
      (some ⟨some "d", [⟨"return", "", none, some (.nameExpression "number")⟩]⟩)
      _ [] (by rfl)).2.1 ["number"] (by simp) (by simp [returnTagsOf, parseJsDoc]) (by rfl)
  · exact ((C4_theorem [] [BodyStmt.ret] none _ [] (by rfl)).2.2 (by simp)
      (by simp [returnTagsOf, parseJsDoc]))

end ClaimsE

section ClaimsF

open Js2Typings

/-- The per-parameter outcome of `buildParams`, located by name: an
undocumented parameter yields the `any` type and exactly one
type-not-specified diagnostic; a documented parameter yields the tag's
matched types and no such diagnostic. -/
theorem buildParams_find (docFor : String → Option DocTag) (params : List String)
    (r : List Parameter × List ExportError × List ExportError) (name : String)
    (h : buildParams docFor params = .ok r) (hnd : params.Nodup) (hm : name ∈ params) :
    ((docFor name).bind (fun t => t.type) = none →
        r.1.find? (fun p => p.name == name) =
          some ⟨name, (docFor name).bind (fun t => t.description), [Ty.mk none "any" []]⟩ ∧
        (r.2.1.filter (fun x => x.message == paramNotSpecified name)).length = 1) ∧
    (∀ tag ty ts, docFor name = some tag → tag.type = some ty →
        parseJsDocType ty = .ok ts →
        r.1.find? (fun p => p.name == name) =
          some ⟨name, tag.description, (matchType ts).types⟩ ∧
        (r.2.1.filter (fun x => x.message == paramNotSpecified name)).length = 0) := by
  induction params generalizing r with
  | nil => exact absurd hm (by simp)
  | cons hd tl ih =>
      obtain ⟨r1, r2, hb, hr, rfl⟩ := buildParams_cons_eq docFor hd tl r h
      have hndtl : tl.Nodup := (List.nodup_cons.mp hnd).2
      have hhdni : hd ∉ tl := (List.nodup_cons.mp hnd).1
      rcases List.mem_cons.mp hm with rfl | hmtl
      · -- the parameter is the head
        constructor
        · intro hun
          rw [buildParam1_undoc docFor name hun] at hb
          injection hb with hb
          rw [← hb]
          constructor
          · exact List.find?_cons_of_pos _ (by simp)
          · rw [List.filter_append, List.length_append]
            rw [buildParams_count_zero docFor tl r2 name hr hhdni]
            simp [paramNotSpecified]
        · intro tag ty ts h1 h2 h3
          rw [buildParam1_doc docFor name tag ty ts h1 h2 h3] at hb
          injection hb with hb
          rw [← hb]
          constructor
          · exact List.find?_cons_of_pos _ (by simp)
          · rw [List.filter_append, List.length_append]
            rw [buildParams_count_zero docFor tl r2 name hr hhdni]
            simp
      · -- the parameter is in the tail
        have hne : r1.1.name ≠ name := by
          rw [buildParam1_name docFor hd r1 hb]
          intro hEq
          rw [hEq] at hhdni
          exact hhdni hmtl
        have hfind : (r1.1 :: r2.1).find? (fun p => p.name == name) =
            r2.1.find? (fun p => p.name == name) :=
          List.find?_cons_of_neg _ (by simp [hne])
        have hflt : (r1.2.1.filter (fun x => x.message == paramNotSpecified name)) = [] := by
          rw [List.filter_eq_nil_iff]
          intro a ha
          rcases buildParam1_errors docFor hd r1 hb with he | he
          · rw [he] at ha; exact absurd ha (by simp)
          · rw [he] at ha
            rcases List.mem_singleton.mp ha with rfl
            simp only [beq_iff_eq]
            intro hEq
            have := paramNotSpecified_inj hEq
            rw [this] at hhdni
            exact hhdni hmtl
        obtain ⟨ihu, ihd⟩ := ih r2 hr hndtl hmtl
        constructor
        · intro hun
          obtain ⟨ih1, ih2⟩ := ihu hun
          refine ⟨by rw [hfind]; exact ih1, ?_⟩
          rw [List.filter_append, List.length_append, hflt, ih2]
          rfl
        · intro tag ty ts h1 h2 h3
          obtain ⟨ih1, ih2⟩ := ihd tag ty ts h1 h2 h3
          refine ⟨by rw [hfind]; exact ih1, ?_⟩
          rw [List.filter_append, List.length_append, hflt, ih2]
          rfl

/-- Claim C5: for every function parameter without a matching documented
`@param` type, `getFunctionExport` assigns the type list `[any]` and the
owning declaration's diagnostics contain exactly one message naming that
parameter; a parameter with a documented type gets the tag's matched types
and no such diagnostic.  (Parameter names are assumed distinct, as JS
strict mode requires.) -/
theorem C5_theorem (params : List String) (body : List BodyStmt)
    (comments : Option DocAST) (f : FunctionDecl) (merr : List ExportError)
    (h : getFunctionExport params body comments = .ok (f, merr))
    (hnd : params.Nodup) (name : String) (hm : name ∈ params) :
    ((jsdocParamFor (paramTagsOf comments) name).bind (fun t => t.type) = none →
        (f.params.find? (fun p => p.name == name)).map (fun p => p.types) =
          some [Ty.mk none "any" []] ∧
        (f.base.errors.filter (fun x => x.message == paramNotSpecified name)).length = 1) ∧
    (∀ tag ty ts, jsdocParamFor (paramTagsOf comments) name = some tag →
        tag.type = some ty → parseJsDocType ty = .ok ts →
        (f.params.find? (fun p => p.name == name)).map (fun p => p.types) =
          some (matchType ts).types ∧
        (f.base.errors.filter (fun x => x.message == paramNotSpecified name)).length = 0) := by
  obtain ⟨scanned, built, hscan, hbuild, hf, hm2⟩ :=
    getFunctionExport_eq params body comments f merr h
  have hscanflt : (scanned.2.filter (fun x => x.message == paramNotSpecified name)) = [] := by
    rw [List.filter_eq_nil_iff]
    intro a ha
    rcases scanReturns_errors _ _ _ _ _ hscan a ha with h2 | h2
    · exact absurd h2 (by simp)
    · rw [h2]
      simp only [beq_iff_eq]
      intro hEq
      exact paramNotSpecified_ne_return name hEq.symm
  obtain ⟨bfu, bfd⟩ := buildParams_find (jsdocParamFor (paramTagsOf comments))
    params built name hbuild hnd hm
  constructor
  · intro hun
    obtain ⟨b1, b2⟩ := bfu hun
    constructor
    · rw [hf]
      simp only [b1]
      rfl
    · rw [hf]
      simp only [List.filter_append, List.length_append, hscanflt, b2, List.length_nil]
  · intro tag ty ts h1 h2 h3
    obtain ⟨b1, b2⟩ := bfd tag ty ts h1 h2 h3
    constructor
    · rw [hf]
      simp only [b1]
      rfl
    · rw [hf]
      simp only [List.filter_append, List.length_append, hscanflt, b2, List.length_nil]

/-- Witness for C5 at concrete inputs: a function with one documented and
one undocumented parameter. -/
theorem C5_witness :
    ((({ base := { exported := false, description := none,
                   errors := [⟨paramNotSpecified "b"⟩] },
         params := [⟨"a", none, [Ty.mk none "number" []]⟩,
                    ⟨"b", none, [Ty.mk none "any" []]⟩],
         result := some [Ty.mk none "void" []] } : FunctionDecl).params.find?
            (fun p => p.name == "b")).map (fun p => p.types) =
        some [Ty.mk none "any" []] ∧
      (({ base := { exported := false, description := none,
                    errors := [⟨paramNotSpecified "b"⟩] },
          params := [⟨"a", none, [Ty.mk none "number" []]⟩,
                     ⟨"b", none, [Ty.mk none "any" []]⟩],
          result := some [Ty.mk none "void" []] } : FunctionDecl).base.errors.filter
            (fun x => x.message == paramNotSpecified "b")).length = 1) ∧
    ((({ base := { exported := false, description := none,
                   errors := [⟨paramNotSpecified "b"⟩] },
         params := [⟨"a", none, [Ty.mk none "number" []]⟩,
                    ⟨"b", none, [Ty.mk none "any" []]⟩],
         result := some [Ty.mk none "void" []] } : FunctionDecl).params.find?
            (fun p => p.name == "a")).map (fun p => p.types) =
        some (matchType ["number"]).types ∧
      (({ base := { exported := false, description := none,
                    errors := [⟨paramNotSpecified "b"⟩] },
          params := [⟨"a", none, [Ty.mk none "number" []]⟩,
                     ⟨"b", none, [Ty.mk none "any" []]⟩],
          result := some [Ty.mk none "void" []] } : FunctionDecl).base.errors.filter
            (fun x => x.message == paramNotSpecified "a")).length = 0) := by
  constructor
  · exact ( C5_theorem ["a", "b"] []
      (some ⟨none, [⟨"param", "a", none, some (.nameExpression "number")⟩]⟩)
      _ [] (by rfl) (by simp) "b" (by simp)).1 (by rfl)
  · exact ( C5_theorem ["a", "b"] []
      (some ⟨none, [⟨"param", "a", none, some (.nameExpression "number")⟩]⟩)
      _ [] (by rfl) (by simp) "a" (by simp)).2
      ⟨"param", "a", none, some (.nameExpression "number")⟩
      (.nameExpression "number") ["number"] (by rfl) (by rfl) (by rfl)

end ClaimsF

section ClaimsG

open Js2Typings

/-- Claim C2 (counterexample): the validation sweep does *not* accept
namespaced types.  The whitelist test is
`type.namespace == null && globalTypes.indexOf(type.name) >= 0`, so a type
with a non-null namespace always fails it: running parseCode on a function
whose parameter is documented `{external:String}` yields a parameter type
rewritten to `{null, any}` plus a `was not found` diagnostic — not the
unchanged namespaced type the claim asserts. -/
theorem C2_counterexample :
    parseCode c2Program "m" =
      Except.ok [("m",
        { items := [("f", Decl.func
            { base := { exported := false, description := none,
                        errors := [⟨paramNotFound "x" "String"⟩] },
              params := [⟨"x", none, [Ty.mk none "any" []]⟩],
              result := some [Ty.mk none "void" []] })],
          errors := [], exports := none })] ∧
    Ty.mk (some "external") "String" [] ≠ Ty.mk none "any" [] := by
  constructor
  · rfl
  · intro h
    injection h with h1 h2
    exact absurd h1 (by simp)

/-- Claim C2 (amended): a `Type` whose namespace is non-null never passes
the sweep's whitelist test; it is always rewritten in place to
`{null, any}` and a diagnostic built from its (pre-rewrite) name is
appended. -/
theorem C2_theorem (gts : List String) (mkMsg : String → String) (types : List Ty)
    (t : Ty) (hmem : t ∈ types) (hns : t.ns ≠ none) :
    Ty.mk none "any" t.parameters ∈ (validateTypes gts mkMsg types).1 ∧
      (⟨mkMsg t.name⟩ : ExportError) ∈ (validateTypes gts mkMsg types).2 := by
  induction types with
  | nil => exact absurd hmem (by simp)
  | cons hd tl ih =>
      rcases List.mem_cons.mp hmem with rfl | hmtl
      · have hc : (t.ns.isNone && gts.contains t.name) = false := by
          cases hns2 : t.ns with
          | none => exact absurd hns2 hns
          | some v => simp [hns2]
        constructor
        · simp only [validateTypes, hc, Bool.false_eq_true, if_false]
          exact List.mem_cons_self _ _
        · simp only [validateTypes, hc, Bool.false_eq_true, if_false]
          exact List.mem_cons_self _ _
      · obtain ⟨ih1, ih2⟩ := ih hmtl
        constructor
        · simp only [validateTypes]
          cases hc : (hd.ns.isNone && gts.contains hd.name) with
          | true => simp only [if_true]; exact List.mem_cons_of_mem _ ih1
          | false =>
              simp only [Bool.false_eq_true, if_false]
              exact List.mem_cons_of_mem _ ih1
        · simp only [validateTypes]
          cases hc : (hd.ns.isNone && gts.contains hd.name) with
          | true => simp only [if_true]; exact ih2
          | false =>
              simp only [Bool.false_eq_true, if_false]
              exact List.mem_cons_of_mem _ ih2

/-- Witness for the amended C2 at a concrete namespaced type. -/
theorem C2_witness :
    Ty.mk none "any" [] ∈
      (validateTypes ["any"] varNotFound [Ty.mk (some "external") "Foo" []]).1 ∧
    (⟨varNotFound "Foo"⟩ : ExportError) ∈
      (validateTypes ["any"] varNotFound [Ty.mk (some "external") "Foo" []]).2 :=
  C2_theorem ["any"] varNotFound [Ty.mk (some "external") "Foo" []]
    (Ty.mk (some "external") "Foo" []) (List.mem_singleton.mpr rfl) (by simp [Ty.ns])

end ClaimsG

section ClaimsH

open Js2Typings

/-! ## Helper lemmas for the statement-processing claims -/

theorem lookupA_setA_self {α : Type} (m : List (String × α)) (k : String) (v : α) :
    lookupA (setA m k v) k = some v := by
  induction m with
  | nil => simp [setA, lookupA]
  | cons hd tl ih =>
      obtain ⟨k', v'⟩ := hd
      by_cases h : k' = k
      · simp [setA, lookupA, h]
      · simp [setA, lookupA, h, ih]

theorem setA_setA_same {α : Type} (m : List (String × α)) (k : String) (v w : α) :
    setA (setA m k v) k w = setA m k w := by
  induction m with
  | nil => simp [setA]
  | cons hd tl ih =>
      obtain ⟨k', v'⟩ := hd
      by_cases h : k' = k
      · simp [setA, h]
      · simp [setA, h, ih]

/-- A statement carrying exactly its own doc comment dispatches directly
(no `lead` comments, so the whitelist half of the state is untouched). -/
theorem processTopStmt_singleton (s : PState) (c : Option DocAST) (st : Stmt) :
    processTopStmt s ⟨singletonComments c, st⟩ =
      (dispatchStmt s.1 c st) >>= (fun m2 => pure (m2, s.2)) := by
  cases c <;> rfl

/-- The flattened path of `<name>.prototype` is never `"module"`. -/
theorem proto_ne_module (nm : String) : nm ++ "." ++ "prototype" ≠ "module" := by
  intro h
  have hd := congrArg String.data h
  simp only [String.data_append] at hd
  have hlen := congrArg List.length hd
  simp only [List.length_append] at hlen
  rw [show (".".data : List Char).length = 1 from rfl,
      show ("prototype".data : List Char).length = 9 from rfl,
      show ("module".data : List Char).length = 6 from rfl] at hlen
  omega

/-- The flattened path of `<name>.prototype` is never `"exports"`. -/
theorem proto_ne_exports (nm : String) : nm ++ "." ++ "prototype" ≠ "exports" := by
  intro h
  have hd := congrArg String.data h
  simp only [String.data_append] at hd
  have hlen := congrArg List.length hd
  simp only [List.length_append] at hlen
  rw [show (".".data : List Char).length = 1 from rfl,
      show ("prototype".data : List Char).length = 9 from rfl,
      show ("exports".data : List Char).length = 7 from rfl] at hlen
  omega

/-- The flattened path of `<name>.prototype` is never `"module.exports"`. -/
theorem proto_ne_module_exports (nm : String) :
    nm ++ "." ++ "prototype" ≠ "module.exports" := by
  intro h
  have hd := congrArg String.data h
  simp only [String.data_append] at hd
  have hlen := congrArg List.length hd
  simp only [List.length_append] at hlen
  rw [show (".".data : List Char).length = 1 from rfl,
      show ("prototype".data : List Char).length = 9 from rfl,
      show ("module.exports".data : List Char).length = 14 from rfl] at hlen
  have hdrop := congrArg (List.drop (nm.data ++ ".".data).length) hd
  rw [List.drop_left] at hdrop
  rw [show (nm.data ++ ".".data).length = nm.data.length + 1 from by
    simp [List.length_append]] at hdrop
  rw [show nm.data.length = 4 from by omega] at hdrop
  exact absurd hdrop (by decide)

/-- The flattened path of `<name>.prototype` passes the suffix test. -/
theorem proto_endsWith (nm : String) :
    endsWithDotPrototype (nm ++ "." ++ "prototype") = true := by
  unfold endsWithDotPrototype
  rw [List.isSuffixOf_iff_suffix]
  simp only [String.data_append, List.append_assoc]
  rw [show ((".".data ++ "prototype".data : List Char)) = ".prototype".data from rfl]
  exact List.suffix_append _ _

/-- Stripping the `.prototype` suffix from the flattened path recovers the
class name. -/
theorem proto_strip (nm : String) :
    stripDotPrototype (nm ++ "." ++ "prototype") = nm := by
  unfold stripDotPrototype
  simp only [String.data_append, List.append_assoc]
  rw [show ((".".data ++ "prototype".data : List Char)) = ".prototype".data from rfl]
  rw [List.length_append]
  rw [show (nm.data.length + (".prototype".data : List Char).length -
      (".prototype".data : List Char).length) = nm.data.length from by omega]
  rw [List.take_left]

end ClaimsH

section ClaimsI

open Js2Typings

/-- Claim C3: for an assignment whose flattened left-hand target is
`<name>.prototype.<member>`, when the item registered under `<name>` is a
`FunctionDeclaration`, parseCode replaces it under the same key by a
`ClassDeclaration` whose constructor is that function and registers the
right-hand side's inferred declaration as a class member under
`<member>`. -/
theorem C3_theorem (s : PState) (nm mem : String) (rhs : Expr) (c : Option DocAST)
    (f : FunctionDecl) (d : Decl) (merr : List ExportError)
    (hf : lookupA s.1.items nm = some (.func f))
    (hrhs : getExport rhs c = .ok (d, merr)) :
    processTopStmt s ⟨singletonComments c, .expressionStatement (.assignmentExpression
        (.memberExpression
          (.memberExpression (.identifier nm) (.identifier "prototype"))
          (.identifier mem))
        rhs)⟩ =
      .ok ({ s.1 with
             items := setA s.1.items nm (.classDecl newBase (some f) [(mem, d)])
             moduleErrors := s.1.moduleErrors ++ merr }, s.2) := by
  rw [processTopStmt_singleton]
  have hstep : dispatchStmt s.1 c (.expressionStatement (.assignmentExpression
      (.memberExpression
        (.memberExpression (.identifier nm) (.identifier "prototype"))
        (.identifier mem))
      rhs)) =
      processAssignmentTarget s.1 c (nm ++ "." ++ "prototype") mem rhs := rfl
  rw [hstep]
  unfold processAssignmentTarget
  rw [if_neg (fun hand => proto_ne_module nm hand.1)]
  rw [if_neg (fun hor =>
    hor.elim (proto_ne_exports nm) (proto_ne_module_exports nm))]
  simp only [proto_endsWith, if_true, proto_strip, hf, lookupA_setA_self, hrhs,
    okBind, pureExcept, setA_setA_same]
  rfl

/-- Witness for C3 at concrete inputs: `Widget.prototype.open = function(){}`
with `Widget` previously registered as a plain function. -/
theorem C3_witness :
    lookupA [("Widget", Decl.func
        { base := newBase, params := [], result := some [Ty.mk none "void" []] })]
      "Widget" = some (Decl.func
        { base := newBase, params := [], result := some [Ty.mk none "void" []] }) ∧
    getExport (.functionExpression [] []) none =
      .ok (Decl.func
        { base := newBase, params := [], result := some [Ty.mk none "void" []] }, []) ∧
    processTopStmt
      (⟨[("Widget", Decl.func
          { base := newBase, params := [], result := some [Ty.mk none "void" []] })],
        [], none⟩, globalTypes0)
      ⟨singletonComments none, .expressionStatement (.assignmentExpression
        (.memberExpression
          (.memberExpression (.identifier "Widget") (.identifier "prototype"))
          (.identifier "open"))
        (.functionExpression [] []))⟩ =
      .ok ((⟨setA
              [("Widget", Decl.func
                { base := newBase, params := [], result := some [Ty.mk none "void" []] })]
              "Widget"
              (.classDecl newBase
                (some { base := newBase, params := [], result := some [Ty.mk none "void" []] })
                [("open", Decl.func
                  { base := newBase, params := [], result := some [Ty.mk none "void" []] })]),
              [] ++ [], none⟩ : MState), globalTypes0) := by
  refine ⟨rfl, rfl, ?_⟩
  exact C3_theorem
    (⟨[("Widget", Decl.func
        { base := newBase, params := [], result := some [Ty.mk none "void" []] })],
      [], none⟩, globalTypes0)
    "Widget" "open" (.functionExpression [] []) none
    { base := newBase, params := [], result := some [Ty.mk none "void" []] }
    (Decl.func
      { base := newBase, params := [], result := some [Ty.mk none "void" []] })
    [] rfl rfl

end ClaimsI

section ClaimsJ

open Js2Typings

/-- Claim C10: processing `exports.<name> = <identifier>` when no item is
registered under `<name>` does not register a new entry — it then sets the
`exported` flag on the missing entry and crashes with a TypeError; with an
entry already registered the statement succeeds, marking that entry
exported. -/
theorem C10_theorem (s : PState) (nm rhsName : String) (c : Option DocAST) :
    (lookupA s.1.items nm = none →
      processTopStmt s ⟨singletonComments c, .expressionStatement (.assignmentExpression
          (.memberExpression (.identifier "exports") (.identifier nm))
          (.identifier rhsName))⟩ = .error cannotSetExportedOfUndefined) ∧
    (∀ d, lookupA s.1.items nm = some d →
      processTopStmt s ⟨singletonComments c, .expressionStatement (.assignmentExpression
          (.memberExpression (.identifier "exports") (.identifier nm))
          (.identifier rhsName))⟩ =
        .ok ({ s.1 with items := setA s.1.items nm (setExported d) }, s.2)) := by
  have hstep : processTopStmt s ⟨singletonComments c, .expressionStatement
      (.assignmentExpression
        (.memberExpression (.identifier "exports") (.identifier nm))
        (.identifier rhsName))⟩ =
      (processAssignmentTarget s.1 c "exports" nm (.identifier rhsName)) >>=
        (fun m2 => pure (m2, s.2)) := by
    rw [processTopStmt_singleton]
    rfl
  have hget : getExport (.identifier rhsName) c =
      .ok (Decl.identifier
        { exported := false, description := (parseJsDoc c).description, errors := [] }
        rhsName, []) := rfl
  constructor
  · intro hnone
    rw [hstep]
    unfold processAssignmentTarget
    rw [if_neg (fun hand => absurd hand.1 (by decide))]
    rw [if_pos (Or.inl rfl)]
    simp only [hget, okBind]
    simp only [hnone]
    rfl
  · intro d hsome
    rw [hstep]
    unfold processAssignmentTarget
    rw [if_neg (fun hand => absurd hand.1 (by decide))]
    rw [if_pos (Or.inl rfl)]
    simp only [hget, okBind]
    simp only [hsome]
    simp only [List.append_nil]
    rfl

/-- Witness for C10 at concrete inputs: `exports.foo = bar` crashes on an
empty item map and succeeds once `foo` is registered. -/
theorem C10_witness :
    (processTopStmt (⟨[], [], none⟩, globalTypes0)
        ⟨singletonComments none, .expressionStatement (.assignmentExpression
          (.memberExpression (.identifier "exports") (.identifier "foo"))
          (.identifier "bar"))⟩ = .error cannotSetExportedOfUndefined) ∧
    (processTopStmt
        (⟨[("foo", Decl.constant newBase (JsVal.num 1))], [], none⟩, globalTypes0)
        ⟨singletonComments none, .expressionStatement (.assignmentExpression
          (.memberExpression (.identifier "exports") (.identifier "foo"))
          (.identifier "bar"))⟩ =
      .ok ((⟨setA [("foo", Decl.constant newBase (JsVal.num 1))] "foo"
              (setExported (Decl.constant newBase (JsVal.num 1))),
              [], none⟩ : MState), globalTypes0)) := by
  constructor
  · exact (C10_theorem (⟨[], [], none⟩, globalTypes0) "foo" "bar" none).1 rfl
  · exact (C10_theorem (⟨[("foo", Decl.constant newBase (JsVal.num 1))], [], none⟩,
      globalTypes0) "foo" "bar" none).2 (Decl.constant newBase (JsVal.num 1)) rfl

end ClaimsJ

section ClaimsK

open Js2Typings

/-! ## Helper lemmas for C1: tracking the recognized-type whitelist -/

theorem collectTypedefTags_gts (tags : List DocTag) (s : PState) (desc : Option String)
    (s' : PState) (h : collectTypedefTags s desc tags = .ok s') :
    s'.2 = s.2 ++ (tags.filter (fun t => t.title == "typedef")).map (fun t => t.name) := by
  induction tags generalizing s with
  | nil =>
      simp only [collectTypedefTags, pureExcept] at h
      injection h with h
      rw [← h]
      simp
  | cons tag rest ih =>
      simp only [collectTypedefTags] at h
      by_cases ht : tag.title = "typedef"
      · rw [if_pos ht] at h
        cases hp : parseJsDocTypeOpt tag.type with
        | error e => rw [hp] at h; exact absurd h (by simp)
        | ok ts =>
            rw [hp] at h
            simp only [okBind, pureExcept] at h
            have ih2 := ih _ h
            rw [ih2]
            simp [List.filter_cons, ht, List.append_assoc]
      · rw [if_neg ht] at h
        simp only [pureExcept, okBind] at h
        have ih2 := ih _ h
        rw [ih2]
        simp only [List.filter_cons]
        rw [if_neg (by simp [ht])]

theorem collectTypedefs_gts (lead : List DocAST) (s s' : PState)
    (h : collectTypedefs s lead = .ok s') :
    s'.2 = s.2 ++ (lead.map typedefNamesOfComment).flatten := by
  induction lead generalizing s with
  | nil =>
      simp only [collectTypedefs, pureExcept] at h
      injection h with h
      rw [← h]
      simp
  | cons c rest ih =>
      simp only [collectTypedefs] at h
      cases hc : collectTypedefTags s c.description c.tags with
      | error e => rw [hc] at h; exact absurd h (by simp)
      | ok s1 =>
          rw [hc] at h
          simp only [okBind] at h
          rw [ih _ h, collectTypedefTags_gts _ _ _ _ hc]
          simp [typedefNamesOfComment, List.append_assoc]

theorem processTopStmt_gts (s s' : PState) (t : TopStmt)
    (h : processTopStmt s t = .ok s') :
    s'.2 = s.2 ++ typedefNamesOfStmt t := by
  simp only [processTopStmt] at h
  cases hc : collectTypedefs s t.leadingComments.reverse.tail with
  | error e => rw [hc] at h; exact absurd h (by simp)
  | ok s1 =>
      rw [hc] at h
      simp only [okBind] at h
      cases hd : dispatchStmt s1.1 t.leadingComments.reverse.head? t.stmt with
      | error e => rw [hd] at h; exact absurd h (by simp)
      | ok m2 =>
          rw [hd] at h
          simp only [okBind, pureExcept] at h
          injection h with h
          rw [← h]
          exact collectTypedefs_gts t.leadingComments.reverse.tail s s1 hc

theorem foldlM_processTopStmt_gts (program : List TopStmt) (s0 s' : PState)
    (h : program.foldlM processTopStmt s0 = .ok s') :
    s'.2 = s0.2 ++ (program.map typedefNamesOfStmt).flatten := by
  induction program generalizing s0 with
  | nil =>
      simp only [List.foldlM] at h
      injection h with h
      rw [← h]
      simp
  | cons t rest ih =>
      simp only [List.foldlM] at h
      cases hp : processTopStmt s0 t with
      | error e => rw [hp] at h; exact absurd h (by simp)
      | ok s1 =>
          rw [hp] at h
          simp only [okBind] at h
          rw [ih _ h, processTopStmt_gts _ _ _ hp]
          simp [List.append_assoc]

/-! ## Helper lemmas for C1: what the sweep establishes -/

theorem validateTypes_tyOk (gts : List String) (mkMsg : String → String)
    (types : List Ty) (hany : gts.contains "any" = true) :
    ∀ t ∈ (validateTypes gts mkMsg types).1, tyOk gts t = true := by
  induction types with
  | nil => simp [validateTypes]
  | cons hd tl ih =>
      simp only [validateTypes]
      cases hc : (hd.ns.isNone && gts.contains hd.name) with
      | true =>
          simp only [if_true]
          intro t ht
          rcases List.mem_cons.mp ht with rfl | htl
          · exact hc
          · exact ih t htl
      | false =>
          simp only [Bool.false_eq_true, if_false]
          intro t ht
          rcases List.mem_cons.mp ht with rfl | htl
          · simp only [tyOk, Ty.ns, Ty.name, Option.isNone_none, Bool.true_and]
            exact hany
          · exact ih t htl

theorem validateParams_tyOk (gts : List String) (ps : List Parameter)
    (hany : gts.contains "any" = true) :
    ∀ p ∈ (validateParams gts ps).1, p.types.all (tyOk gts) = true := by
  induction ps with
  | nil => simp [validateParams]
  | cons hd tl ih =>
      simp only [validateParams]
      intro p hp
      rcases List.mem_cons.mp hp with rfl | htl
      · exact List.all_eq_true.mpr
          (validateTypes_tyOk gts (paramNotFound hd.name) hd.types hany)
      · exact ih p htl

theorem validateDecl_validated (gts : List String) (items : List (String × Decl))
    (d : Decl) (hany : gts.contains "any" = true) :
    topLevelValidated gts (validateDecl gts items d) = true := by
  cases d with
  | variableDecl b types =>
      simp only [validateDecl, topLevelValidated]
      exact List.all_eq_true.mpr (validateTypes_tyOk gts varNotFound types hany)
  | func f =>
      cases hfr : f.result with
      | none =>
          simp only [validateDecl, hfr, topLevelValidated]
          refine (Bool.and_eq_true _ _).mpr ⟨?_, rfl⟩
          exact List.all_eq_true.mpr (validateParams_tyOk gts f.params hany)
      | some ts =>
          simp only [validateDecl, hfr, topLevelValidated]
          refine (Bool.and_eq_true _ _).mpr ⟨?_, ?_⟩
          · exact List.all_eq_true.mpr (validateParams_tyOk gts f.params hany)
          · exact List.all_eq_true.mpr
              (validateTypes_tyOk gts resultNotFound ts hany)
  | identifier b localName =>
      simp only [validateDecl]
      cases hl : (lookupA items localName).isNone
      · simp only [Bool.false_eq_true, if_false]
        rfl
      · simp only [if_true]
        rfl
  | constant b v => rfl
  | typedef b ts => rfl
  | importDecl b m l => rfl
  | newInstance b t => rfl
  | object b ms => rfl
  | classDecl b c ms => rfl

theorem sweepItems_validated (gts : List String) (items : List (String × Decl))
    (hany : gts.contains "any" = true) :
    ∀ q ∈ sweepItems gts items, topLevelValidated gts q.2 = true := by
  intro q hq
  obtain ⟨p, _, rfl⟩ := List.mem_map.mp hq
  exact validateDecl_validated gts items p.2 hany

/-! ## C1 -/

/-- Claim C1 (counterexample): parseCode does *not* guarantee that every
reachable `Type` node in the returned tree has a recognized or `any` name.
The validation sweep only visits top-level `VariableDeclaration` and
`FunctionDeclaration` items; on `c1Program`, `Widget` has been promoted to
a `ClassDeclaration`, so the unresolved name `Sprocket` inside its `open`
member survives the sweep: filtering the reachable type names for
violations of the claimed invariant leaves `["Sprocket"]`, not `[]`. -/
theorem C1_counterexample :
    (parseCode c1Program "widget").map (fun mods =>
      (((mods.map (fun p => moduleReachableTypes p.2)).flatten).map Ty.name).filter
        (fun n => !(n == "any" || (recognizedTypeSet c1Program).contains n))) =
      Except.ok ["Sprocket"] := by
  rfl

/-- Claim C1 (amended): after parseCode's post-pass validation sweep, the
type-safety net holds for the types *directly held by the module's
top-level `VariableDeclaration` and `FunctionDeclaration` items* (parameter,
result and variable types): each such type's namespace is null and its name
is in the recognized-type set (the built-ins plus the unit's `@typedef`
names; unresolved ones having been rewritten to `any`, which is itself in
the set).  Types inside class members, object members, typedefs and the
whole-module `exports` slot are not validated. -/
theorem C1_theorem (program : List TopStmt) (moduleName : String)
    (mods : List (String × ModuleDecl))
    (h : parseCode program moduleName = .ok mods) :
    ∀ p ∈ mods, ∀ q ∈ p.2.items,
      topLevelValidated (recognizedTypeSet program) q.2 = true := by
  have h2 : (do
      let s ← List.foldlM processTopStmt ((⟨[], [], none⟩ : MState), globalTypes0) program
      pure [(moduleName,
        (⟨sweepItems s.2 s.1.items, s.1.moduleErrors, s.1.exportsSlot⟩ : ModuleDecl))]) =
      Except.ok mods := h
  clear h
  cases hf : List.foldlM processTopStmt ((⟨[], [], none⟩ : MState), globalTypes0) program with
  | error e => rw [hf] at h2; exact absurd h2 (by simp)
  | ok s =>
      rw [hf] at h2
      simp only [okBind, pureExcept] at h2
      injection h2 with h
      intro p hp
      rw [← h] at hp
      rcases List.mem_singleton.mp hp with rfl
      intro q hq
      have hgts : s.2 = recognizedTypeSet program := by
        rw [foldlM_processTopStmt_gts program ((⟨[], [], none⟩ : MState), globalTypes0) s hf]
        rfl
      have hany : s.2.contains "any" = true := by
        rw [hgts]
        exact List.elem_iff.mpr (List.mem_append_left _ (by decide))
      rw [← hgts]
      exact sweepItems_validated s.2 s.1.items hany q hq

/-- Witness for the amended C1 at a concrete program: one function with an
undocumented parameter; after the sweep its parameter type `any` and result
type `void` both satisfy the net. -/
theorem C1_witness :
    parseCode [⟨[], .functionDeclaration "f" ["x"] []⟩] "m" =
      .ok [("m", ⟨[("f", Decl.func
          { base := { exported := false, description := none,
                      errors := [⟨paramNotSpecified "x"⟩] ++ [] ++ [] },
            params := [⟨"x", none, [Ty.mk none "any" []]⟩],
            result := some [Ty.mk none "void" []] })], [], none⟩)] ∧
    topLevelValidated (recognizedTypeSet [⟨[], .functionDeclaration "f" ["x"] []⟩])
      (Decl.func
        { base := { exported := false, description := none,
                    errors := [⟨paramNotSpecified "x"⟩] ++ [] ++ [] },
          params := [⟨"x", none, [Ty.mk none "any" []]⟩],
          result := some [Ty.mk none "void" []] }) = true := by
  constructor
  · rfl
  · exact C1_theorem [⟨[], .functionDeclaration "f" ["x"] []⟩] "m" _ rfl
      ("m", ⟨[("f", Decl.func
          { base := { exported := false, description := none,
                      errors := [⟨paramNotSpecified "x"⟩] ++ [] ++ [] },
            params := [⟨"x", none, [Ty.mk none "any" []]⟩],
            result := some [Ty.mk none "void" []] })], [], none⟩)
      (List.mem_singleton.mpr rfl)
      ("f", Decl.func
          { base := { exported := false, description := none,
                      errors := [⟨paramNotSpecified "x"⟩] ++ [] ++ [] },
            params := [⟨"x", none, [Ty.mk none "any" []]⟩],
            result := some [Ty.mk none "void" []] })
      (List.mem_singleton.mpr rfl)

end ClaimsK
